import Mathlib

/-!
# STM32DFT: a verification development for `src/main.cpp`

The program samples `DFT_SIZE = 256` values, removes their mean, computes a
magnitude spectrum with a one-stage radix-4 decimation-in-time DFT, normalises
the spectrum to the display height and draws 16 bars on a character LCD.

Conventions of the embedding:

* A `float` buffer (`float *`, declared with `DFT_SIZE` elements in `main`) is
  a `List α`; the read `buf[i]` is `buf.getD i 0` and the write `buf[i] = v`
  is `buf.set i v`.
* `float` arithmetic is exact arithmetic in a linearly ordered field `α`
  (the theorems about the transform take `α = ℝ`).  The libm functions
  `cosf`, `sinf`, `sqrtf` are not part of the repository and are parameters of
  `dft_calc_radix4`; so is the macro `PI` (the source writes `3.14159`).
* A `float` division whose divisor is a run-time value is fallible: a zero
  divisor is the fault `Fault.divByZero`.  A read of the spectrum buffer in
  `show_dft` at an index outside the buffer is the fault `Fault.outOfBounds`.
* `for` loops are folds over the list of values of the loop counter.
* The volatile global `mode` is passed explicitly.
-/

namespace STM32DFT

/-! ## Constants of `main.cpp` -/

def DFT_SIZE : Nat := 256
def F_SAMP : Nat := 48000
def NUM_UDCS : Nat := 8
def NUM_PIX_VERT : Nat := 16
def NUM_PIX_HOR : Nat := 8
def NUM_COLS_LCD : Nat := 16
def NUM_ROWS_LCD : Nat := 2
def NUM_MODES : Int := 4
def MODE_4kHz : Int := 0
def MODE_8kHz : Int := 1
def MODE_16kHz : Int := 2
def MODE_24kHz : Int := 3

/-! ## The mode state machine -/

/-- Initial value of the global: `volatile int mode = MODE_8kHz;`. -/
def mode_init : Int := MODE_8kHz

/-- The interrupt service routine `pb_ISR`: `mode = (mode + 1) % NUM_MODES;`
    with the truncating remainder of C. -/
def pb_ISR (mode : Int) : Int := Int.tmod (mode + 1) NUM_MODES

/-- The mode after `n` notifications, starting from `mode`. -/
def pb_ISR_iter : Nat → Int → Int
  | 0, mode => mode
  | n + 1, mode => pb_ISR_iter n (pb_ISR mode)

/-- A mode value is reachable when some number of notifications leads to it
    from the initial value. -/
def Reachable (m : Int) : Prop := ∃ n : Nat, pb_ISR_iter n mode_init = m

/-! ## Group size -/

/-- The function `samples_per_lcd_char`.  `F_SAMP/DFT_SIZE` and
    `F_SAMP/2/NUM_COLS_LCD` are divisions of `int` constants and truncate; the
    quotients by them in the first three branches are floating-point (here
    rational) divisions; the quotient in the last branch is again a division of
    `int`s, whose result is converted before `floorf`. -/
def samples_per_lcd_char (mode : Int) : Int :=
  if mode = MODE_4kHz then
    ⌈((4000 : ℚ) / (NUM_COLS_LCD : ℚ)) / ((F_SAMP / DFT_SIZE : Nat) : ℚ)⌉
  else if mode = MODE_8kHz then
    ⌈((8000 : ℚ) / (NUM_COLS_LCD : ℚ)) / ((F_SAMP / DFT_SIZE : Nat) : ℚ)⌉
  else if mode = MODE_16kHz then
    ⌈((16000 : ℚ) / (NUM_COLS_LCD : ℚ)) / ((F_SAMP / DFT_SIZE : Nat) : ℚ)⌉
  else
    ⌊(((F_SAMP / 2 / NUM_COLS_LCD) / (F_SAMP / DFT_SIZE) : Nat) : ℚ)⌋

/-- Nominal maximum frequency of a band, as the specification binds it to the
    modes: 4 kHz, 8 kHz, 16 kHz and Nyquist. -/
def bandMaxFreq (mode : Int) : ℚ :=
  if mode = 0 then 4000 else if mode = 1 then 8000 else if mode = 2 then 16000
  else (F_SAMP : ℚ) / 2

/-- Group size in the words of the specification, with exact division:
    `ceil((bandMaxFreq/COLS) / (sampleRate/N))` for all modes except the widest
    band, which uses `floor((sampleRate/2/COLS) / (sampleRate/N))`. -/
def groupSize_spec (mode : Int) : Int :=
  if mode = 3 then
    ⌊((F_SAMP : ℚ) / 2 / (NUM_COLS_LCD : ℚ)) / ((F_SAMP : ℚ) / (DFT_SIZE : ℚ))⌋
  else
    ⌈(bandMaxFreq mode / (NUM_COLS_LCD : ℚ)) / ((F_SAMP : ℚ) / (DFT_SIZE : ℚ))⌉

/-- The values the counter `p` takes in `for (p = lo; p < hi; p++)`. -/
def forRange (lo hi : Int) : List Int :=
  (List.range (hi - lo).toNat).map (fun i : Nat => lo + (i : Int))

/-- The indices `p` at which `show_dft` reads `dft_abs` while it computes the
    height of column `k`: `for (p = samp_char*k; p < (k+1)*samp_char; p++)`. -/
def show_dft_indices (samp_char : Int) (k : Nat) : List Int :=
  forRange (samp_char * (k : Int)) (((k : Int) + 1) * samp_char)

/-! ## Faults and primitive operations -/

/-- The two ways in which a step of the pipeline can go wrong. -/
inductive Fault where
  | divByZero
  | outOfBounds
  deriving DecidableEq, Repr

section Numeric

variable {α : Type} [LinearOrderedField α]

/-- Floating-point division by a run-time divisor. -/
def fdiv (a b : α) : Except Fault α :=
  if b = 0 then Except.error Fault.divByZero else Except.ok (a / b)

/-- Read `buf[p]` where `p` is an `int` computed at run time. -/
def readBuf (buf : List α) (p : Int) : Except Fault α :=
  if 0 ≤ p then
    match buf[p.toNat]? with
    | some v => Except.ok v
    | none => Except.error Fault.outOfBounds
  else Except.error Fault.outOfBounds

/-- The conversion `(int)x` of a `float`: truncation towards zero. -/
def float_to_int [FloorRing α] (x : α) : Int :=
  if 0 ≤ x then ⌊x⌋ else ⌈x⌉

/-- The call `powf(x, 2)`. -/
def powf2 (x : α) : α := x ^ 2

/-! ## DC removal -/

/-- The function `signal_DC_removal`: accumulate the sum, divide it by
    `DFT_SIZE`, subtract the mean from every element in place. -/
def signal_DC_removal (signal : List α) : List α :=
  let mean := (List.range DFT_SIZE).foldl (fun mean k => mean + signal.getD k 0) 0
  let mean := mean / (DFT_SIZE : α)
  (List.range DFT_SIZE).foldl
    (fun signal k => signal.set k (signal.getD k 0 - mean)) signal

/-! ## Radix-4 transform -/

/-- The eight accumulators of `dft_calc_radix4`. -/
structure Radix4Acc (α : Type) where
  Fp_real : α
  Fp_imag : α
  Fpp_real : α
  Fpp_imag : α
  Gp_real : α
  Gp_imag : α
  Gpp_real : α
  Gpp_imag : α

/-- One iteration of the inner loop of `dft_calc_radix4` (lines 114-121). -/
def radix4_step (cosf sinf : α → α) (PI : α) (signal_in : List α) (k : Nat)
    (a : Radix4Acc α) (n : Nat) : Radix4Acc α :=
  { Fp_real := a.Fp_real + signal_in.getD (4*n) 0
      * cosf (2*PI*(k : α)*(n : α) / ((DFT_SIZE/4 : Nat) : α))
    Fp_imag := a.Fp_imag + signal_in.getD (4*n) 0
      * sinf (2*PI*(k : α)*(n : α) / ((DFT_SIZE/4 : Nat) : α))
    Fpp_real := a.Fpp_real + signal_in.getD (4*n + 2) 0
      * cosf (2*PI*(k : α)*((4*n + 2 : Nat) : α) / (DFT_SIZE : α))
    Fpp_imag := a.Fpp_imag + signal_in.getD (4*n + 2) 0
      * sinf (2*PI*(k : α)*((4*n + 2 : Nat) : α) / (DFT_SIZE : α))
    Gp_real := a.Gp_real + signal_in.getD (4*n + 1) 0
      * cosf (2*PI*(k : α)*((4*n + 1 : Nat) : α) / (DFT_SIZE : α))
    Gp_imag := a.Gp_imag + signal_in.getD (4*n + 1) 0
      * sinf (2*PI*(k : α)*((4*n + 1 : Nat) : α) / (DFT_SIZE : α))
    Gpp_real := a.Gpp_real + signal_in.getD (4*n + 3) 0
      * cosf (2*PI*(k : α)*((4*n + 3 : Nat) : α) / (DFT_SIZE : α))
    Gpp_imag := a.Gpp_imag + signal_in.getD (4*n + 3) 0
      * sinf (2*PI*(k : α)*((4*n + 3 : Nat) : α) / (DFT_SIZE : α)) }

/-- The inner loop of `dft_calc_radix4` for one `k`: the accumulators are
    cleared and `n` runs over `[0, DFT_SIZE/4)`. -/
def radix4_acc (cosf sinf : α → α) (PI : α) (signal_in : List α) (k : Nat) :
    Radix4Acc α :=
  (List.range (DFT_SIZE/4)).foldl (radix4_step cosf sinf PI signal_in k)
    { Fp_real := 0, Fp_imag := 0, Fpp_real := 0, Fpp_imag := 0,
      Gp_real := 0, Gp_imag := 0, Gpp_real := 0, Gpp_imag := 0 }

/-- The body of the outer loop of `dft_calc_radix4`: the inner loop and the
    four butterfly writes (lines 124-134). -/
def radix4_body (cosf sinf sqrtf : α → α) (PI : α) (signal_in : List α)
    (dft_abs : List α) (k : Nat) : List α :=
  let a := radix4_acc cosf sinf PI signal_in k
  let dft_abs := dft_abs.set k
    (sqrtf (powf2 ((a.Fp_real + a.Fpp_real) + (a.Gp_real + a.Gpp_real)) +
            powf2 ((a.Fp_imag + a.Fpp_imag) + (a.Gp_imag + a.Gpp_imag))))
  let dft_abs := dft_abs.set (k + DFT_SIZE/4)
    (sqrtf (powf2 ((a.Fp_real - a.Fpp_real) - (a.Gp_imag - a.Gpp_imag)) +
            powf2 ((a.Fp_imag - a.Fpp_imag) - (a.Gpp_real - a.Gp_real))))
  let dft_abs := dft_abs.set (k + 2*DFT_SIZE/4)
    (sqrtf (powf2 ((a.Fp_real + a.Fpp_real) - (a.Gp_real + a.Gpp_real)) +
            powf2 ((a.Fp_imag + a.Fpp_imag) - (a.Gp_imag + a.Gpp_imag))))
  dft_abs.set (k + 3*DFT_SIZE/4)
    (sqrtf (powf2 ((a.Fp_real - a.Fpp_real) + (a.Gp_imag - a.Gpp_imag)) +
            powf2 ((a.Fp_imag - a.Fpp_imag) + (- a.Gp_real + a.Gpp_real))))

/-- The function `dft_calc_radix4`: `k` runs over `[0, DFT_SIZE/4)`. -/
def dft_calc_radix4 (cosf sinf sqrtf : α → α) (PI : α) (dft_abs signal_in : List α) :
    List α :=
  (List.range (DFT_SIZE/4)).foldl (radix4_body cosf sinf sqrtf PI signal_in) dft_abs

/-! ## Normalisation -/

/-- The first loop of `dft_normalize_pix`: `max` starts at `0.0` and takes
    every element that exceeds it. -/
def dft_max (dft_abs : List α) : α :=
  (List.range DFT_SIZE).foldl
    (fun mx k => if dft_abs.getD k 0 > mx then dft_abs.getD k 0 else mx) 0

/-- The function `dft_normalize_pix`: every element is replaced by
    `NUM_COLS_LCD*dft_abs[k]/max`. -/
def dft_normalize_pix (dft_abs : List α) : Except Fault (List α) :=
  let mx := dft_max dft_abs
  (List.range DFT_SIZE).foldlM
    (fun dft_abs k => do
      let q ← fdiv ((NUM_COLS_LCD : α) * dft_abs.getD k 0) mx
      pure (dft_abs.set k q))
    dft_abs

/-! ## Aggregation and display -/

/-- One column of `show_dft`: sum the bins of the column, divide by
    `samp_char`, and convert to `int`; the result is the value passed to
    `print_bar`. -/
def show_dft_col [FloorRing α] (samp_char : Int) (dft_abs : List α) (k : Nat) :
    Except Fault Int := do
  let height_value ← (show_dft_indices samp_char k).foldlM
    (fun height_value p => do
      let v ← readBuf dft_abs p
      pure (height_value + v))
    (0 : α)
  let height_value ← fdiv height_value (samp_char : α)
  pure (float_to_int height_value)

/-- The function `show_dft`, returning the 16 values it passes to `print_bar`,
    in column order. -/
def show_dft [FloorRing α] (mode : Int) (dft_abs : List α) : Except Fault (List Int) := do
  let samp_char := samples_per_lcd_char mode
  let dft_abs ← dft_normalize_pix dft_abs
  (List.range NUM_COLS_LCD).mapM (show_dft_col samp_char dft_abs)

/-- One pass of the loop of `main` after acquisition: DC removal, transform,
    display (lines 273-286, without the mode announcement). -/
def main_cycle [FloorRing α] (cosf sinf sqrtf : α → α) (PI : α) (mode : Int)
    (dft_abs signal_in : List α) : Except Fault (List Int) :=
  let signal_in := signal_DC_removal signal_in
  let dft_abs := dft_calc_radix4 cosf sinf sqrtf PI dft_abs signal_in
  show_dft mode dft_abs

/-- A value `M` is the maximum of the first `DFT_SIZE` elements of `d`. -/
def IsBufMax (d : List α) (M : α) : Prop :=
  (∃ k, k < DFT_SIZE ∧ d.getD k 0 = M) ∧ ∀ k, k < DFT_SIZE → d.getD k 0 ≤ M

end Numeric

/-! ## The main loop and the mode check -/

/-- The two variables of the mode check: the global `mode` and the local
    `now_mode` of `main`. -/
structure MainState where
  mode : Int
  now_mode : Int
  deriving DecidableEq, Repr

/-- Line 259 of `main`: `now_mode = mode - 1;`. -/
def main_init (mode : Int) : MainState :=
  { mode := mode, now_mode := mode - 1 }

/-- Wrap-around of a 32-bit `int`. -/
def int32 (x : Int) : Int :=
  (x + 2147483648) % 4294967296 - 2147483648

/-- The argument of `show_mode` in line 283:
    `samples_per_lcd_char()*NUM_COLS_LCD*F_SAMP/DFT_SIZE`, evaluated left to
    right in 32-bit `int` arithmetic. -/
def show_mode_arg (mode : Int) : Int :=
  Int.tdiv
    (int32 (int32 (samples_per_lcd_char mode * (NUM_COLS_LCD : Int)) * (F_SAMP : Int)))
    (DFT_SIZE : Int)

/-- What lines 281-286 do with `mode`: the frequency announced by `show_mode`
    (when the check reports), the `samp_char` that `show_dft` reads in line
    226, and the state afterwards. -/
structure CycleTail where
  announced : Option Int
  samp_char : Int
  state : MainState
  deriving DecidableEq, Repr

/-- Lines 281-286 of `main` with the notifications between the reads of
    `mode` made explicit: `n1` notifications fire after the check (lines
    281-282) and before line 283 calls `samples_per_lcd_char`, `n2` fire after
    that call and before `show_dft` calls `samples_per_lcd_char` in line 226
    (`show_mode` sleeps 500 ms in between).  When the check does not report,
    `n1 + n2` notifications fire between the check and line 226.  Each call of
    `samples_per_lcd_char` is taken as one read of `mode`. -/
def main_tail (n1 n2 : Nat) (s : MainState) : CycleTail :=
  if s.now_mode ≠ s.mode then
    { announced := some (show_mode_arg (pb_ISR_iter n1 s.mode))
      samp_char := samples_per_lcd_char (pb_ISR_iter n2 (pb_ISR_iter n1 s.mode))
      state := { mode := pb_ISR_iter n2 (pb_ISR_iter n1 s.mode), now_mode := s.mode } }
  else
    { announced := none
      samp_char := samples_per_lcd_char (pb_ISR_iter (n1 + n2) s.mode)
      state := { mode := pb_ISR_iter (n1 + n2) s.mode, now_mode := s.now_mode } }

/-! ## The bar glyphs and `print_bar` -/

/-- The table `udc_bar`: eight glyphs of eight pattern bytes each. -/
def udc_bar : List (List Nat) :=
  [ [0x00, 0x00, 0x00, 0x00, 0x00, 0x00, 0x00, 0xFF],
    [0x00, 0x00, 0x00, 0x00, 0x00, 0x00, 0xFF, 0xFF],
    [0x00, 0x00, 0x00, 0x00, 0x00, 0xFF, 0xFF, 0xFF],
    [0x00, 0x00, 0x00, 0x00, 0xFF, 0xFF, 0xFF, 0xFF],
    [0x00, 0x00, 0x00, 0xFF, 0xFF, 0xFF, 0xFF, 0xFF],
    [0x00, 0x00, 0xFF, 0xFF, 0xFF, 0xFF, 0xFF, 0xFF],
    [0x00, 0xFF, 0xFF, 0xFF, 0xFF, 0xFF, 0xFF, 0xFF],
    [0xFF, 0xFF, 0xFF, 0xFF, 0xFF, 0xFF, 0xFF, 0xFF] ]

/-- Number of lit pixel rows of the glyph with character code `c`: the
    non-zero pattern bytes of `udc_bar[c]` (no glyph for a code outside the
    table). -/
def litRows (c : Int) : Nat :=
  if 0 ≤ c then ((udc_bar.getD c.toNat []).filter (fun b => b ≠ 0)).length else 0

/-- One `LCD.putc(c)` at the cursor position `(col, row)` set by the
    preceding `LCD.locate(col, row)`. -/
structure LcdPut where
  col : Int
  row : Int
  c : Int
  deriving DecidableEq, Repr

/-- The function `print_bar`, as the list of characters it writes. -/
def print_bar (value col : Int) : List LcdPut :=
  if value ≤ ((NUM_PIX_VERT / 2 : Nat) : Int) then
    if value > 0 then [{ col := col, row := 1, c := value - 1 }]
    else [{ col := col, row := 1, c := 0 }]
  else
    [{ col := col, row := 0, c := value - (NUM_UDCS : Int) - 1 },
     { col := col, row := 1, c := 7 }]

/-- Total number of pixel rows lit by a list of writes. -/
def litRowsTotal (ws : List LcdPut) : Nat :=
  (ws.map (fun w => litRows w.c)).sum

/-! ## Loop lemmas -/

section LoopLemmas

variable {α : Type} [LinearOrderedField α]

theorem getD_set_buf (l : List α) (k j : Nat) (v : α) :
    (l.set k v).getD j 0 = if j = k ∧ k < l.length then v else l.getD j 0 := by
  simp only [List.getD_eq_getElem?_getD, List.getElem?_set]
  by_cases h : k = j
  · subst h
    by_cases h2 : k < l.length
    · simp [h2]
    · simp [h2, List.getElem?_eq_none (not_lt.mp h2)]
  · have h3 : ¬ j = k := fun e => h e.symm
    simp [h, h3]

theorem foldl_add_range (f : Nat → α) (a : α) (n : Nat) :
    (List.range n).foldl (fun acc k => acc + f k) a = a + ∑ k in Finset.range n, f k := by
  induction n with
  | zero => simp
  | succ n ih =>
    rw [List.range_succ, List.foldl_append, ih, Finset.sum_range_succ]
    simp [add_assoc]

theorem foldl_set_range (g : Nat → α → α) (l : List α) (n : Nat) (hn : n ≤ l.length) :
    ((List.range n).foldl (fun s k => s.set k (g k (s.getD k 0))) l).length = l.length ∧
    ∀ j, ((List.range n).foldl (fun s k => s.set k (g k (s.getD k 0))) l).getD j 0
      = if j < n then g j (l.getD j 0) else l.getD j 0 := by
  induction n with
  | zero => simp
  | succ n ih =>
    obtain ⟨hlen, hget⟩ := ih (Nat.le_of_succ_le hn)
    rw [List.range_succ, List.foldl_append]
    simp only [List.foldl_cons, List.foldl_nil, List.length_set]
    refine ⟨hlen, fun j => ?_⟩
    rw [getD_set_buf, hlen, hget n, hget j]
    have hnl : n < l.length := hn
    by_cases hj : j = n
    · subst hj; simp [hnl]
    · by_cases hj2 : j < n
      · have : j < n + 1 := by omega
        simp [hj, hj2, this]
      · have : ¬ j < n + 1 := by omega
        simp [hj, hj2, this]

end LoopLemmas

/-! ## Normalisation lemmas -/

section NormLemmas

variable {α : Type} [LinearOrderedField α]

theorem samples_per_lcd_char_cases (mode : Int) :
    samples_per_lcd_char mode =
      if mode = 0 then 2 else if mode = 1 then 3 else if mode = 2 then 6 else 8 := by
  unfold samples_per_lcd_char MODE_4kHz MODE_8kHz MODE_16kHz F_SAMP DFT_SIZE NUM_COLS_LCD
  have h1 : ⌈((4000 : ℚ) / ((16 : Nat) : ℚ)) / ((48000 / 256 : Nat) : ℚ)⌉ = 2 := by
    rw [Int.ceil_eq_iff]; norm_num
  have h2 : ⌈((8000 : ℚ) / ((16 : Nat) : ℚ)) / ((48000 / 256 : Nat) : ℚ)⌉ = 3 := by
    rw [Int.ceil_eq_iff]; norm_num
  have h3 : ⌈((16000 : ℚ) / ((16 : Nat) : ℚ)) / ((48000 / 256 : Nat) : ℚ)⌉ = 6 := by
    rw [Int.ceil_eq_iff]; norm_num
  have h4 : ⌊(((48000 / 2 / 16) / (48000 / 256) : Nat) : ℚ)⌋ = 8 := by
    rw [Int.floor_eq_iff]; norm_num
  rw [h1, h2, h3, h4]

theorem samples_per_lcd_char_mem (mode : Int) :
    samples_per_lcd_char mode = 2 ∨ samples_per_lcd_char mode = 3 ∨
    samples_per_lcd_char mode = 6 ∨ samples_per_lcd_char mode = 8 := by
  rw [samples_per_lcd_char_cases]
  split_ifs <;> simp

/-- The running maximum after `n` iterations of the first loop of
    `dft_normalize_pix`. -/
theorem foldl_max_spec (d : List α) (n : Nat) :
    let m := (List.range n).foldl
      (fun mx k => if d.getD k 0 > mx then d.getD k 0 else mx) (0 : α)
    0 ≤ m ∧ (∀ k, k < n → d.getD k 0 ≤ m) ∧ (m = 0 ∨ ∃ k, k < n ∧ d.getD k 0 = m) := by
  induction n with
  | zero => simp
  | succ n ih =>
    simp only [List.range_succ, List.foldl_append, List.foldl_cons, List.foldl_nil]
    obtain ⟨h0, hle, hex⟩ := ih
    set m := (List.range n).foldl
      (fun mx k => if d.getD k 0 > mx then d.getD k 0 else mx) (0 : α) with hm
    by_cases hc : d.getD n 0 > m
    · simp only [hc, if_true]
      refine ⟨le_trans h0 (le_of_lt hc), fun k hk => ?_, Or.inr ⟨n, Nat.lt_succ_self n, rfl⟩⟩
      rcases Nat.lt_succ_iff_lt_or_eq.mp hk with h | h
      · exact le_trans (hle k h) (le_of_lt hc)
      · rw [h]
    · simp only [hc, if_false]
      refine ⟨h0, fun k hk => ?_, ?_⟩
      · rcases Nat.lt_succ_iff_lt_or_eq.mp hk with h | h
        · exact hle k h
        · rw [h]; exact not_lt.mp hc
      · rcases hex with h | ⟨k, hk, hk2⟩
        · exact Or.inl h
        · exact Or.inr ⟨k, Nat.lt_succ_of_lt hk, hk2⟩

theorem dft_max_nonneg (d : List α) : 0 ≤ dft_max d :=
  (foldl_max_spec d DFT_SIZE).1

theorem dft_max_eq_of_isBufMax (d : List α) (M : α) (h : IsBufMax d M) (hM : 0 ≤ M) :
    dft_max d = M := by
  obtain ⟨h0, hle, hex⟩ := foldl_max_spec d DFT_SIZE
  obtain ⟨⟨k0, hk0, hk0M⟩, hmax⟩ := h
  have h1 : M ≤ dft_max d := hk0M ▸ hle k0 hk0
  rcases hex with h | ⟨k, hk, hk2⟩
  · have : dft_max d = 0 := h
    rw [this] at h1 ⊢
    exact le_antisymm hM h1 |>.symm ▸ rfl
  · have : dft_max d ≤ M := by
      have := hmax k hk
      rw [hk2] at this
      exact this
    exact le_antisymm this h1

theorem dft_max_eq_zero_of_all_zero (d : List α) (h : ∀ k, k < DFT_SIZE → d.getD k 0 = 0) :
    dft_max d = 0 := by
  obtain ⟨_, _, hex⟩ := foldl_max_spec d DFT_SIZE
  rcases hex with h1 | ⟨k, hk, hk2⟩
  · exact h1
  · have : dft_max d = d.getD k 0 := hk2.symm
    rw [this, h k hk]

theorem fdiv_ok (a b : α) (hb : b ≠ 0) : fdiv a b = Except.ok (a / b) := by
  simp [fdiv, hb]

theorem fdiv_zero (a : α) : fdiv a 0 = Except.error Fault.divByZero := by
  simp [fdiv]

theorem foldlM_fdiv_ok (g : List α → Nat → α) (mx : α) (hmx : mx ≠ 0) (l : List Nat)
    (s : List α) :
    l.foldlM (fun s k => do
        let q ← fdiv (g s k) mx
        pure (s.set k q)) s
      = Except.ok (l.foldl (fun s k => s.set k (g s k / mx)) s) := by
  induction l generalizing s with
  | nil => rfl
  | cons a l ih =>
    rw [List.foldlM_cons, List.foldl_cons, fdiv_ok _ _ hmx]
    exact ih _

theorem dft_normalize_pix_ok (d : List α) (hmx : dft_max d ≠ 0) :
    dft_normalize_pix d = Except.ok ((List.range DFT_SIZE).foldl
      (fun s k => s.set k ((NUM_COLS_LCD : α) * s.getD k 0 / dft_max d)) d) := by
  unfold dft_normalize_pix
  exact foldlM_fdiv_ok (fun s k => (NUM_COLS_LCD : α) * s.getD k 0) (dft_max d) hmx _ d

theorem dft_normalize_pix_zero_max (d : List α) (hmx : dft_max d = 0) :
    dft_normalize_pix d = Except.error Fault.divByZero := by
  unfold dft_normalize_pix
  have : List.range DFT_SIZE = 0 :: (List.range 255).map Nat.succ := by
    unfold DFT_SIZE
    rw [List.range_succ_eq_map]
  rw [this, List.foldlM_cons, hmx, fdiv_zero]
  rfl

/-- Closed form of a successful normalisation. -/
theorem dft_normalize_pix_spec (d : List α) (hlen : d.length = DFT_SIZE) (hmx : dft_max d ≠ 0) :
    ∃ d', dft_normalize_pix d = Except.ok d' ∧ d'.length = DFT_SIZE ∧
      ∀ j, d'.getD j 0 =
        if j < DFT_SIZE then (NUM_COLS_LCD : α) * d.getD j 0 / dft_max d else d.getD j 0 := by
  refine ⟨_, dft_normalize_pix_ok d hmx, ?_, ?_⟩
  · have := (foldl_set_range (fun _ v => (NUM_COLS_LCD : α) * v / dft_max d) d DFT_SIZE
      (le_of_eq hlen.symm)).1
    rw [this, hlen]
  · exact (foldl_set_range (fun _ v => (NUM_COLS_LCD : α) * v / dft_max d) d DFT_SIZE
      (le_of_eq hlen.symm)).2

end NormLemmas

/-! ## Aggregation lemmas -/

section ShowLemmas

variable {α : Type} [LinearOrderedField α]

theorem readBuf_ok (d : List α) (p : Int) (h0 : 0 ≤ p) (h1 : p.toNat < d.length) :
    readBuf d p = Except.ok (d.getD p.toNat 0) := by
  unfold readBuf
  rw [if_pos h0, List.getD_eq_getElem?_getD, List.getElem?_eq_getElem h1]
  rfl

theorem ok_bind {β γ : Type} (x : β) (g : β → Except Fault γ) :
    (Except.ok x >>= g) = g x := rfl

theorem foldlM_readBuf (d : List α) (lo n : Nat) (h : lo + n ≤ d.length) (a : α) :
    ((List.range n).map (fun i : Nat => (lo : Int) + (i : Int))).foldlM
        (fun height_value p => do
          let v ← readBuf d p
          pure (height_value + v)) a
      = Except.ok (a + ∑ i in Finset.range n, d.getD (lo + i) 0) := by
  induction n with
  | zero => simp [pure, Except.pure]
  | succ n ih =>
    rw [List.range_succ, List.map_append, List.foldlM_append, ih (by omega)]
    have hr : readBuf d ((lo : Int) + (n : Int)) = Except.ok (d.getD (lo + n) 0) := by
      have e : ((lo : Int) + (n : Int)).toNat = lo + n := by omega
      have := readBuf_ok d ((lo : Int) + (n : Int)) (by omega) (by omega)
      rw [e] at this
      exact this
    rw [Finset.sum_range_succ, ← add_assoc, List.map_cons, List.map_nil]
    rw [ok_bind, List.foldlM_cons, hr]
    rfl

theorem show_dft_indices_eq (G k : Nat) :
    show_dft_indices (G : Int) k
      = (List.range G).map (fun i : Nat => ((G * k : Nat) : Int) + (i : Int)) := by
  unfold show_dft_indices forRange
  have e : ((((k : Int) + 1) * (G : Int)) - (G : Int) * (k : Int)).toNat = G := by
    have : (((k : Int) + 1) * (G : Int)) - (G : Int) * (k : Int) = (G : Int) := by ring
    rw [this]; simp
  rw [e]
  apply List.map_congr_left
  intro i _
  push_cast
  ring

theorem show_dft_col_ok [FloorRing α] (G : Nat) (hG : 0 < G) (d : List α) (k : Nat)
    (h : G * k + G ≤ d.length) :
    show_dft_col (G : Int) d k
      = Except.ok (float_to_int ((∑ i in Finset.range G, d.getD (G * k + i) 0) / (G : α))) := by
  unfold show_dft_col
  rw [show_dft_indices_eq, foldlM_readBuf d (G * k) G h 0]
  have hG0 : ((G : Int) : α) ≠ 0 := by
    have : (G : α) ≠ 0 := Nat.cast_ne_zero.mpr (Nat.pos_iff_ne_zero.mp hG)
    simpa using this
  show (fdiv _ _ >>= fun x => pure (float_to_int x)) = _
  rw [fdiv_ok _ _ hG0, zero_add]
  simp only [Int.cast_natCast]
  rfl

theorem mapM_ok {β γ : Type} (f : β → Except Fault γ) (g : β → γ) (l : List β)
    (h : ∀ x, x ∈ l → f x = Except.ok (g x)) : l.mapM f = Except.ok (l.map g) := by
  induction l with
  | nil => rfl
  | cons a l ih =>
    rw [List.mapM_cons, h a (List.mem_cons_self a l), ih (fun x hx => h x (List.mem_cons_of_mem a hx))]
    rfl

theorem float_to_int_of_nonneg [FloorRing α] (x : α) (h : 0 ≤ x) : float_to_int x = ⌊x⌋ := by
  simp [float_to_int, h]

theorem samples_per_lcd_char_nat (mode : Int) :
    ∃ G : Nat, samples_per_lcd_char mode = (G : Int) ∧ 0 < G ∧ G ≤ 8 := by
  rcases samples_per_lcd_char_mem mode with h | h | h | h
  · exact ⟨2, h, by norm_num, by norm_num⟩
  · exact ⟨3, h, by norm_num, by norm_num⟩
  · exact ⟨6, h, by norm_num, by norm_num⟩
  · exact ⟨8, h, by norm_num, by norm_num⟩

/-- The heights of `show_dft` in terms of the normalised buffer. -/
theorem show_dft_of_normalized [FloorRing α] (mode : Int) (d d' : List α)
    (hd' : dft_normalize_pix d = Except.ok d') (hlen' : d'.length = DFT_SIZE) :
    show_dft mode d = Except.ok ((List.range NUM_COLS_LCD).map (fun c =>
      float_to_int ((∑ i in Finset.range (samples_per_lcd_char mode).toNat,
        d'.getD ((samples_per_lcd_char mode).toNat * c + i) 0)
          / (((samples_per_lcd_char mode).toNat : Nat) : α)))) := by
  unfold show_dft
  rw [hd']
  show (List.range NUM_COLS_LCD).mapM (show_dft_col (samples_per_lcd_char mode) d') = _
  apply mapM_ok
  intro c hc
  have hc16 : c < 16 := by simpa [NUM_COLS_LCD] using hc
  obtain ⟨G, hG, hGpos, hG8⟩ := samples_per_lcd_char_nat mode
  rw [hG, Int.toNat_natCast]
  have hb : G * c + G ≤ d'.length := by
    rw [hlen']; unfold DFT_SIZE; nlinarith
  rw [show_dft_col_ok G hGpos d' c hb]

theorem show_dft_zero_max [FloorRing α] (mode : Int) (d : List α) (hmx : dft_max d = 0) :
    show_dft mode d = Except.error Fault.divByZero := by
  unfold show_dft
  rw [dft_normalize_pix_zero_max d hmx]
  rfl

end ShowLemmas

/-! ## Mode machine, group size and DC removal lemmas -/

/-- Invariant of the mode machine: the four mode values are closed under
    notifications. -/
theorem pb_ISR_iter_mem (n : Nat) (m : Int) (h : m = 0 ∨ m = 1 ∨ m = 2 ∨ m = 3) :
    pb_ISR_iter n m = 0 ∨ pb_ISR_iter n m = 1 ∨ pb_ISR_iter n m = 2 ∨ pb_ISR_iter n m = 3 := by
  induction n generalizing m with
  | zero => exact h
  | succ n ih =>
    apply ih
    rcases h with h | h | h | h <;> subst h <;> decide

theorem reachable_iff (m : Int) : Reachable m ↔ (m = 0 ∨ m = 1 ∨ m = 2 ∨ m = 3) := by
  constructor
  · rintro ⟨n, rfl⟩
    exact pb_ISR_iter_mem n mode_init (Or.inr (Or.inl rfl))
  · rintro (h | h | h | h) <;> subst h
    · exact ⟨3, by decide⟩
    · exact ⟨0, by decide⟩
    · exact ⟨1, by decide⟩
    · exact ⟨2, by decide⟩

theorem groupSize_spec_cases (mode : Int) (h0 : 0 ≤ mode) (h3 : mode ≤ 3) :
    groupSize_spec mode =
      if mode = 0 then 2 else if mode = 1 then 3 else if mode = 2 then 6 else 8 := by
  have hm : mode = 0 ∨ mode = 1 ∨ mode = 2 ∨ mode = 3 := by omega
  rcases hm with h | h | h | h <;> subst h <;>
    simp only [groupSize_spec, bandMaxFreq, F_SAMP, DFT_SIZE, NUM_COLS_LCD] <;> norm_num
  all_goals (rw [Int.ceil_eq_iff]; norm_num)

theorem show_dft_indices_bound (mode : Int) (k : Nat) (hk : k < NUM_COLS_LCD) (p : Int)
    (hp : p ∈ show_dft_indices (samples_per_lcd_char mode) k) : 0 ≤ p ∧ p < 128 := by
  obtain ⟨G, hG, hGpos, hG8⟩ := samples_per_lcd_char_nat mode
  rw [hG, show_dft_indices_eq] at hp
  obtain ⟨i, hi, rfl⟩ := List.mem_map.mp hp
  have hi' : i < G := List.mem_range.mp hi
  have hk' : k < 16 := hk
  have : G * k + i < 128 := by nlinarith
  constructor
  · positivity
  · exact_mod_cast this

theorem show_dft_no_outOfBounds {α : Type} [LinearOrderedField α] [FloorRing α] (mode : Int)
    (d : List α) (hlen : d.length = DFT_SIZE) :
    show_dft mode d ≠ Except.error Fault.outOfBounds := by
  by_cases hmx : dft_max d = 0
  · rw [show_dft_zero_max mode d hmx]
    intro h
    cases h
  · obtain ⟨d', hd', hlen', _⟩ := dft_normalize_pix_spec d hlen hmx
    rw [show_dft_of_normalized mode d d' hd' hlen']
    intro h
    cases h

section DCRemoval

variable {α : Type} [LinearOrderedField α]

theorem signal_DC_removal_spec (x : List α) (hx : x.length = DFT_SIZE) :
    (signal_DC_removal x).length = DFT_SIZE ∧
    ∀ j, (signal_DC_removal x).getD j 0 =
      if j < DFT_SIZE then
        x.getD j 0 - (∑ i in Finset.range DFT_SIZE, x.getD i 0) / (DFT_SIZE : α)
      else x.getD j 0 := by
  unfold signal_DC_removal
  simp only []
  rw [foldl_add_range (fun k => x.getD k 0) 0 DFT_SIZE, zero_add]
  have := foldl_set_range
    (fun _ v => v - (∑ i in Finset.range DFT_SIZE, x.getD i 0) / (DFT_SIZE : α)) x DFT_SIZE
    (le_of_eq hx.symm)
  exact ⟨this.1.trans hx, this.2⟩

end DCRemoval

section NormalizeMax

variable {α : Type} [LinearOrderedField α]

theorem getD_replicate_of_lt (v : α) (k : Nat) (hk : k < 256) :
    (List.replicate 256 v).getD k 0 = v := by
  rw [List.getD_eq_getElem?_getD, List.getElem?_replicate, if_pos hk]
  rfl

theorem isBufMax_replicate (v : α) : IsBufMax (List.replicate 256 v) v :=
  ⟨⟨0, by decide, getD_replicate_of_lt v 0 (by decide)⟩,
    fun k hk => le_of_eq (getD_replicate_of_lt v k hk)⟩

/-- Normalisation of a buffer whose maximum `M` is strictly positive. -/
theorem dft_normalize_pix_of_max (d : List α) (M : α) (hlen : d.length = 256)
    (hmax : IsBufMax d M) (hpos : 0 < M) :
    ∃ d', dft_normalize_pix d = Except.ok d' ∧ d'.length = 256 ∧
      (∀ k, k < 256 → d'.getD k 0 = d.getD k 0 * 16 / M) ∧
      IsBufMax d' (NUM_PIX_VERT : α) ∧ (NUM_PIX_VERT : α) = 16 := by
  have hmx : dft_max d = M := dft_max_eq_of_isBufMax d M hmax (le_of_lt hpos)
  have hne : dft_max d ≠ 0 := by rw [hmx]; exact ne_of_gt hpos
  obtain ⟨d', hd', hlen', hget⟩ := dft_normalize_pix_spec d hlen hne
  have hval : ∀ k, k < 256 → d'.getD k 0 = d.getD k 0 * 16 / M := by
    intro k hk
    rw [hget k, if_pos (show k < DFT_SIZE from hk), hmx]
    simp only [NUM_COLS_LCD, Nat.cast_ofNat]
    ring
  have h16 : (NUM_PIX_VERT : α) = 16 := by simp [NUM_PIX_VERT]
  refine ⟨d', hd', hlen', hval, ⟨?_, ?_⟩, h16⟩
  · obtain ⟨k0, hk0, hk0M⟩ := hmax.1
    refine ⟨k0, hk0, ?_⟩
    rw [hval k0 hk0, hk0M, h16]
    field_simp
  · intro k hk
    rw [hval k hk, h16, div_le_iff₀ hpos]
    have := hmax.2 k hk
    linarith

theorem sum_getD_bounds (d' : List α) (G c : Nat) (B : α)
    (h : ∀ j, j < G * c + G → 0 ≤ d'.getD j 0 ∧ d'.getD j 0 ≤ B) :
    0 ≤ ∑ i in Finset.range G, d'.getD (G * c + i) 0 ∧
    ∑ i in Finset.range G, d'.getD (G * c + i) 0 ≤ (G : α) * B := by
  constructor
  · apply Finset.sum_nonneg
    intro i hi
    exact (h _ (by have := Finset.mem_range.mp hi; omega)).1
  · calc ∑ i in Finset.range G, d'.getD (G * c + i) 0
        ≤ ∑ _i in Finset.range G, B := by
          apply Finset.sum_le_sum
          intro i hi
          exact (h _ (by have := Finset.mem_range.mp hi; omega)).2
      _ = (G : α) * B := by simp

end NormalizeMax

/-! ## The radix-4 decomposition over the complex numbers -/

theorem sum_range_four_mul {M : Type} [AddCommMonoid M] (f : ℕ → M) (N : ℕ) :
    ∑ m in Finset.range (4 * N), f m
      = ∑ n in Finset.range N, (f (4 * n) + f (4 * n + 1) + f (4 * n + 2) + f (4 * n + 3)) := by
  induction N with
  | zero => simp
  | succ N ih =>
    rw [Finset.sum_range_succ (fun n => f (4 * n) + f (4 * n + 1) + f (4 * n + 2) + f (4 * n + 3)) N,
      ← ih, show 4 * (N + 1) = 4 * N + 1 + 1 + 1 + 1 by ring,
      Finset.sum_range_succ, Finset.sum_range_succ, Finset.sum_range_succ, Finset.sum_range_succ]
    simp only [add_assoc]

theorem exp_pi_div_two_I : Complex.exp ((Real.pi / 2 : ℝ) * Complex.I) = Complex.I := by
  rw [Complex.exp_mul_I, ← Complex.ofReal_cos, ← Complex.ofReal_sin, Real.cos_pi_div_two,
    Real.sin_pi_div_two]
  simp

/-- The twiddle factor at index `4n + r` of bin `k + 64 q`. -/
theorem twiddle_split (k q n r : ℕ) :
    Complex.exp (((2 * Real.pi * ((k + 64 * q : ℕ) : ℝ) * ((4 * n + r : ℕ) : ℝ) / 256 : ℝ) : ℂ) * Complex.I)
      = Complex.exp (((2 * Real.pi * (k : ℝ) * ((4 * n + r : ℕ) : ℝ) / 256 : ℝ) : ℂ) * Complex.I)
        * Complex.I ^ (q * r) := by
  have h : (((2 * Real.pi * ((k + 64 * q : ℕ) : ℝ) * ((4 * n + r : ℕ) : ℝ) / 256 : ℝ) : ℂ) * Complex.I)
      = (((2 * Real.pi * (k : ℝ) * ((4 * n + r : ℕ) : ℝ) / 256 : ℝ) : ℂ) * Complex.I)
        + ((q * n : ℕ) : ℂ) * (2 * Real.pi * Complex.I)
        + ((q * r : ℕ) : ℂ) * (((Real.pi / 2 : ℝ) : ℂ) * Complex.I) := by
    push_cast
    ring
  rw [h, Complex.exp_add, Complex.exp_add, Complex.exp_nat_mul_two_pi_mul_I, Complex.exp_nat_mul,
    exp_pi_div_two_I, mul_one]

theorem twiddle_split_at (k q n r m : ℕ) (hm : m = 4 * n + r) :
    Complex.exp (((2 * Real.pi * ((k + 64 * q : ℕ) : ℝ) * (m : ℝ) / 256 : ℝ) : ℂ) * Complex.I)
      = Complex.I ^ (q * r) *
        Complex.exp (((2 * Real.pi * (k : ℝ) * (m : ℝ) / 256 : ℝ) : ℂ) * Complex.I) := by
  subst hm
  rw [twiddle_split, mul_comm]

theorem sum_ofReal_mul_exp (y θ : ℕ → ℝ) (N : ℕ) :
    ∑ n in Finset.range N, (y n : ℂ) * Complex.exp ((θ n : ℂ) * Complex.I)
      = ((∑ n in Finset.range N, y n * Real.cos (θ n) : ℝ) : ℂ)
        + ((∑ n in Finset.range N, y n * Real.sin (θ n) : ℝ) : ℂ) * Complex.I := by
  apply Complex.ext
  · simp [Complex.re_sum, Complex.exp_ofReal_mul_I_re, Complex.cos_ofReal_re]
  · simp [Complex.im_sum, Complex.exp_ofReal_mul_I_im, Complex.sin_ofReal_re]

/-- Radix-4 decomposition of bin `k + 64 q` of the (conjugate) DFT sum. -/
theorem radix4_decomp (x : ℕ → ℝ) (k q : ℕ) :
    ∑ m in Finset.range 256, (x m : ℂ) *
        Complex.exp (((2 * Real.pi * ((k + 64 * q : ℕ) : ℝ) * (m : ℝ) / 256 : ℝ) : ℂ) * Complex.I)
      = (((∑ n in Finset.range 64, x (4 * n) * Real.cos (2 * Real.pi * k * ((4 * n : ℕ) : ℝ) / 256) : ℝ) : ℂ)
          + ((∑ n in Finset.range 64, x (4 * n) * Real.sin (2 * Real.pi * k * ((4 * n : ℕ) : ℝ) / 256) : ℝ) : ℂ) * Complex.I)
        + Complex.I ^ (q * 1) *
          (((∑ n in Finset.range 64, x (4 * n + 1) * Real.cos (2 * Real.pi * k * ((4 * n + 1 : ℕ) : ℝ) / 256) : ℝ) : ℂ)
          + ((∑ n in Finset.range 64, x (4 * n + 1) * Real.sin (2 * Real.pi * k * ((4 * n + 1 : ℕ) : ℝ) / 256) : ℝ) : ℂ) * Complex.I)
        + Complex.I ^ (q * 2) *
          (((∑ n in Finset.range 64, x (4 * n + 2) * Real.cos (2 * Real.pi * k * ((4 * n + 2 : ℕ) : ℝ) / 256) : ℝ) : ℂ)
          + ((∑ n in Finset.range 64, x (4 * n + 2) * Real.sin (2 * Real.pi * k * ((4 * n + 2 : ℕ) : ℝ) / 256) : ℝ) : ℂ) * Complex.I)
        + Complex.I ^ (q * 3) *
          (((∑ n in Finset.range 64, x (4 * n + 3) * Real.cos (2 * Real.pi * k * ((4 * n + 3 : ℕ) : ℝ) / 256) : ℝ) : ℂ)
          + ((∑ n in Finset.range 64, x (4 * n + 3) * Real.sin (2 * Real.pi * k * ((4 * n + 3 : ℕ) : ℝ) / 256) : ℝ) : ℂ) * Complex.I) := by
  rw [show (256 : ℕ) = 4 * 64 by norm_num, sum_range_four_mul]
  simp only [Finset.sum_add_distrib]
  rw [← sum_ofReal_mul_exp (fun n => x (4 * n)) (fun n => 2 * Real.pi * k * ((4 * n : ℕ) : ℝ) / 256),
    ← sum_ofReal_mul_exp (fun n => x (4 * n + 1)) (fun n => 2 * Real.pi * k * ((4 * n + 1 : ℕ) : ℝ) / 256),
    ← sum_ofReal_mul_exp (fun n => x (4 * n + 2)) (fun n => 2 * Real.pi * k * ((4 * n + 2 : ℕ) : ℝ) / 256),
    ← sum_ofReal_mul_exp (fun n => x (4 * n + 3)) (fun n => 2 * Real.pi * k * ((4 * n + 3 : ℕ) : ℝ) / 256)]
  simp only [Finset.mul_sum]
  congr 1
  congr 1
  congr 1
  · apply Finset.sum_congr rfl
    intro n _
    rw [twiddle_split_at k q n 0 (4 * n) rfl]
    simp
  · apply Finset.sum_congr rfl
    intro n _
    rw [twiddle_split_at k q n 1 (4 * n + 1) rfl]
    ring
  · apply Finset.sum_congr rfl
    intro n _
    rw [twiddle_split_at k q n 2 (4 * n + 2) rfl]
    ring
  · apply Finset.sum_congr rfl
    intro n _
    rw [twiddle_split_at k q n 3 (4 * n + 3) rfl]
    ring

theorem abs_eq_sqrt_of_re_im (z : ℂ) (R J : ℝ) (hR : z.re = R) (hJ : z.im = J) :
    Complex.abs z = Real.sqrt (R ^ 2 + J ^ 2) := by
  rw [Complex.abs_apply, Complex.normSq_apply, hR, hJ, pow_two, pow_two]

/-- The reference DFT sum and its conjugate have the same magnitude. -/
theorem abs_dft_ref_eq (x : ℕ → ℝ) (j : ℕ) :
    Complex.abs (∑ n in Finset.range 256,
        (x n : ℂ) * Complex.exp (-2 * Real.pi * Complex.I * j * n / 256))
      = Complex.abs (∑ m in Finset.range 256, (x m : ℂ) *
        Complex.exp (((2 * Real.pi * (j : ℝ) * (m : ℝ) / 256 : ℝ) : ℂ) * Complex.I)) := by
  rw [← Complex.abs_conj, map_sum]
  congr 1
  apply Finset.sum_congr rfl
  intro n _
  rw [map_mul, Complex.conj_ofReal, ← Complex.exp_conj]
  congr 2
  simp only [map_div₀, map_mul, map_neg, Complex.conj_ofReal, Complex.conj_I, map_ofNat,
    map_natCast]
  push_cast
  ring

theorem I_pow_three : Complex.I ^ 3 = -Complex.I := by
  rw [pow_succ, Complex.I_sq]; ring

theorem I_pow_six : Complex.I ^ 6 = -1 := by
  rw [show 6 = 4 + 2 by norm_num, pow_add, Complex.I_pow_four, Complex.I_sq]; ring

theorem I_pow_nine : Complex.I ^ 9 = Complex.I := by
  rw [show 9 = 4 + 4 + 1 by norm_num, pow_add, pow_add, Complex.I_pow_four]; ring

theorem butterfly_abs_0 (C0 S0 C1 S1 C2 S2 C3 S3 : ℝ) :
    Complex.abs (((C0 : ℂ) + (S0 : ℂ) * Complex.I)
        + Complex.I ^ (0 * 1) * ((C1 : ℂ) + (S1 : ℂ) * Complex.I)
        + Complex.I ^ (0 * 2) * ((C2 : ℂ) + (S2 : ℂ) * Complex.I)
        + Complex.I ^ (0 * 3) * ((C3 : ℂ) + (S3 : ℂ) * Complex.I))
      = Real.sqrt (((C0 + C2) + (C1 + C3)) ^ 2 + ((S0 + S2) + (S1 + S3)) ^ 2) := by
  apply abs_eq_sqrt_of_re_im
  · simp; ring
  · simp; ring

theorem butterfly_abs_1 (C0 S0 C1 S1 C2 S2 C3 S3 : ℝ) :
    Complex.abs (((C0 : ℂ) + (S0 : ℂ) * Complex.I)
        + Complex.I ^ (1 * 1) * ((C1 : ℂ) + (S1 : ℂ) * Complex.I)
        + Complex.I ^ (1 * 2) * ((C2 : ℂ) + (S2 : ℂ) * Complex.I)
        + Complex.I ^ (1 * 3) * ((C3 : ℂ) + (S3 : ℂ) * Complex.I))
      = Real.sqrt (((C0 - C2) - (S1 - S3)) ^ 2 + ((S0 - S2) - (C3 - C1)) ^ 2) := by
  apply abs_eq_sqrt_of_re_im
  · simp [I_pow_three, Complex.I_sq]; ring
  · simp [I_pow_three, Complex.I_sq]; ring

theorem butterfly_abs_2 (C0 S0 C1 S1 C2 S2 C3 S3 : ℝ) :
    Complex.abs (((C0 : ℂ) + (S0 : ℂ) * Complex.I)
        + Complex.I ^ (2 * 1) * ((C1 : ℂ) + (S1 : ℂ) * Complex.I)
        + Complex.I ^ (2 * 2) * ((C2 : ℂ) + (S2 : ℂ) * Complex.I)
        + Complex.I ^ (2 * 3) * ((C3 : ℂ) + (S3 : ℂ) * Complex.I))
      = Real.sqrt (((C0 + C2) - (C1 + C3)) ^ 2 + ((S0 + S2) - (S1 + S3)) ^ 2) := by
  apply abs_eq_sqrt_of_re_im
  · simp [I_pow_six, Complex.I_pow_four, Complex.I_sq]; ring
  · simp [I_pow_six, Complex.I_pow_four, Complex.I_sq]; ring

theorem butterfly_abs_3 (C0 S0 C1 S1 C2 S2 C3 S3 : ℝ) :
    Complex.abs (((C0 : ℂ) + (S0 : ℂ) * Complex.I)
        + Complex.I ^ (3 * 1) * ((C1 : ℂ) + (S1 : ℂ) * Complex.I)
        + Complex.I ^ (3 * 2) * ((C2 : ℂ) + (S2 : ℂ) * Complex.I)
        + Complex.I ^ (3 * 3) * ((C3 : ℂ) + (S3 : ℂ) * Complex.I))
      = Real.sqrt (((C0 - C2) + (S1 - S3)) ^ 2 + ((S0 - S2) + (- C1 + C3)) ^ 2) := by
  apply abs_eq_sqrt_of_re_im
  · simp [I_pow_three, I_pow_six, I_pow_nine]; ring
  · simp [I_pow_three, I_pow_six, I_pow_nine]; ring

/-! ## The loops of the transform -/

section Radix4Loops

variable {α : Type} [LinearOrderedField α]

/-- Closed form of the accumulators after `N` iterations of the inner loop. -/
theorem radix4_acc_foldl (cosf sinf : α → α) (PI : α) (x : List α) (k N : Nat) :
    (List.range N).foldl (radix4_step cosf sinf PI x k)
      { Fp_real := 0, Fp_imag := 0, Fpp_real := 0, Fpp_imag := 0,
        Gp_real := 0, Gp_imag := 0, Gpp_real := 0, Gpp_imag := 0 }
    = { Fp_real := ∑ n in Finset.range N, x.getD (4*n) 0
          * cosf (2*PI*(k : α)*(n : α) / ((DFT_SIZE/4 : Nat) : α))
        Fp_imag := ∑ n in Finset.range N, x.getD (4*n) 0
          * sinf (2*PI*(k : α)*(n : α) / ((DFT_SIZE/4 : Nat) : α))
        Fpp_real := ∑ n in Finset.range N, x.getD (4*n + 2) 0
          * cosf (2*PI*(k : α)*((4*n + 2 : Nat) : α) / (DFT_SIZE : α))
        Fpp_imag := ∑ n in Finset.range N, x.getD (4*n + 2) 0
          * sinf (2*PI*(k : α)*((4*n + 2 : Nat) : α) / (DFT_SIZE : α))
        Gp_real := ∑ n in Finset.range N, x.getD (4*n + 1) 0
          * cosf (2*PI*(k : α)*((4*n + 1 : Nat) : α) / (DFT_SIZE : α))
        Gp_imag := ∑ n in Finset.range N, x.getD (4*n + 1) 0
          * sinf (2*PI*(k : α)*((4*n + 1 : Nat) : α) / (DFT_SIZE : α))
        Gpp_real := ∑ n in Finset.range N, x.getD (4*n + 3) 0
          * cosf (2*PI*(k : α)*((4*n + 3 : Nat) : α) / (DFT_SIZE : α))
        Gpp_imag := ∑ n in Finset.range N, x.getD (4*n + 3) 0
          * sinf (2*PI*(k : α)*((4*n + 3 : Nat) : α) / (DFT_SIZE : α)) } := by
  induction N with
  | zero => simp
  | succ N ih =>
    rw [List.range_succ, List.foldl_append, ih]
    simp only [List.foldl_cons, List.foldl_nil, radix4_step, Finset.sum_range_succ]

/-- The four writes of one iteration of the outer loop, read back. -/
theorem getD_set4 (l : List α) (k j : Nat) (v0 v1 v2 v3 : α) (hl : l.length = 256)
    (hk : k < 64) :
    ((((l.set k v0).set (k + 64) v1).set (k + 128) v2).set (k + 192) v3).getD j 0
      = if j = k + 192 then v3 else if j = k + 128 then v2 else if j = k + 64 then v1
        else if j = k then v0 else l.getD j 0 := by
  rw [getD_set_buf, getD_set_buf, getD_set_buf, getD_set_buf]
  simp only [List.length_set, hl]
  have h0 : k < 256 := by omega
  have h1 : k + 64 < 256 := by omega
  have h2 : k + 128 < 256 := by omega
  have h3 : k + 192 < 256 := by omega
  simp only [h0, h1, h2, h3, and_true]

/-- The outer loop after `N` iterations, for arbitrary butterfly values. -/
theorem foldl_set4_range (b0 b1 b2 b3 : Nat → α) (l : List α) (hl : l.length = 256) (N : Nat)
    (hN : N ≤ 64) :
    ((List.range N).foldl (fun s k =>
        (((s.set k (b0 k)).set (k + 64) (b1 k)).set (k + 128) (b2 k)).set (k + 192) (b3 k)) l).length
      = 256 ∧
    ∀ j, ((List.range N).foldl (fun s k =>
        (((s.set k (b0 k)).set (k + 64) (b1 k)).set (k + 128) (b2 k)).set (k + 192) (b3 k)) l).getD j 0
      = if j < 256 ∧ j % 64 < N then
          (if j / 64 = 0 then b0 (j % 64) else if j / 64 = 1 then b1 (j % 64)
           else if j / 64 = 2 then b2 (j % 64) else b3 (j % 64))
        else l.getD j 0 := by
  induction N with
  | zero => simp [hl]
  | succ N ih =>
    obtain ⟨hlen, hget⟩ := ih (Nat.le_of_succ_le hN)
    rw [List.range_succ, List.foldl_append]
    simp only [List.foldl_cons, List.foldl_nil, List.length_set]
    refine ⟨hlen, fun j => ?_⟩
    rw [getD_set4 _ N j _ _ _ _ hlen (by omega), hget j]
    by_cases h3 : j = N + 192
    · have e1 : j / 64 = 3 := by omega
      have e2 : j % 64 = N := by omega
      have hc : j < 256 ∧ j % 64 < N + 1 := ⟨by omega, by omega⟩
      rw [if_pos h3, if_pos hc, e1, e2]
      simp
    · by_cases h2 : j = N + 128
      · have e1 : j / 64 = 2 := by omega
        have e2 : j % 64 = N := by omega
        have hc : j < 256 ∧ j % 64 < N + 1 := ⟨by omega, by omega⟩
        rw [if_neg h3, if_pos h2, if_pos hc, e1, e2]
        simp
      · by_cases h1 : j = N + 64
        · have e1 : j / 64 = 1 := by omega
          have e2 : j % 64 = N := by omega
          have hc : j < 256 ∧ j % 64 < N + 1 := ⟨by omega, by omega⟩
          rw [if_neg h3, if_neg h2, if_pos h1, if_pos hc, e1, e2]
          simp
        · by_cases h0 : j = N
          · have e1 : j / 64 = 0 := by omega
            have e2 : j % 64 = N := by omega
            have hc : j < 256 ∧ j % 64 < N + 1 := ⟨by omega, by omega⟩
            rw [if_neg h3, if_neg h2, if_neg h1, if_pos h0, if_pos hc, e1, e2]
            simp
          · simp only [h3, h2, h1, h0, if_false]
            by_cases hj : j < 256 ∧ j % 64 < N
            · have : j < 256 ∧ j % 64 < N + 1 := ⟨hj.1, by omega⟩
              rw [if_pos hj, if_pos this]
            · have : ¬ (j < 256 ∧ j % 64 < N + 1) := by
                intro h
                apply hj
                refine ⟨h.1, ?_⟩
                have := h.2
                have : j % 64 ≠ N := by omega
                omega
              rw [if_neg hj, if_neg this]

end Radix4Loops

/-- The accumulators of `dft_calc_radix4` over `ℝ`, with the angles written
    over the common denominator `256`. -/
theorem radix4_acc_real (x : List ℝ) (k : Nat) :
    radix4_acc Real.cos Real.sin Real.pi x k
    = { Fp_real := ∑ n in Finset.range 64, x.getD (4*n) 0
          * Real.cos (2 * Real.pi * k * ((4 * n : ℕ) : ℝ) / 256)
        Fp_imag := ∑ n in Finset.range 64, x.getD (4*n) 0
          * Real.sin (2 * Real.pi * k * ((4 * n : ℕ) : ℝ) / 256)
        Fpp_real := ∑ n in Finset.range 64, x.getD (4*n + 2) 0
          * Real.cos (2 * Real.pi * k * ((4 * n + 2 : ℕ) : ℝ) / 256)
        Fpp_imag := ∑ n in Finset.range 64, x.getD (4*n + 2) 0
          * Real.sin (2 * Real.pi * k * ((4 * n + 2 : ℕ) : ℝ) / 256)
        Gp_real := ∑ n in Finset.range 64, x.getD (4*n + 1) 0
          * Real.cos (2 * Real.pi * k * ((4 * n + 1 : ℕ) : ℝ) / 256)
        Gp_imag := ∑ n in Finset.range 64, x.getD (4*n + 1) 0
          * Real.sin (2 * Real.pi * k * ((4 * n + 1 : ℕ) : ℝ) / 256)
        Gpp_real := ∑ n in Finset.range 64, x.getD (4*n + 3) 0
          * Real.cos (2 * Real.pi * k * ((4 * n + 3 : ℕ) : ℝ) / 256)
        Gpp_imag := ∑ n in Finset.range 64, x.getD (4*n + 3) 0
          * Real.sin (2 * Real.pi * k * ((4 * n + 3 : ℕ) : ℝ) / 256) } := by
  unfold radix4_acc
  rw [radix4_acc_foldl]
  have h64 : DFT_SIZE / 4 = 64 := by decide
  have h256 : (DFT_SIZE : ℝ) = 256 := by simp [DFT_SIZE]
  have hang : ∀ n : ℕ, 2 * Real.pi * (k : ℝ) * (n : ℝ) / ((64 : ℕ) : ℝ)
      = 2 * Real.pi * k * ((4 * n : ℕ) : ℝ) / 256 := by
    intro n
    push_cast
    ring
  simp only [h64, h256, hang]

/-- The four butterfly outputs of iteration `k` are the magnitudes of the DFT
    sums of the bins `k`, `k + 64`, `k + 128`, `k + 192`. -/
theorem radix4_butterfly_abs (x : List ℝ) (k : Nat) :
    Real.sqrt (powf2 (((radix4_acc Real.cos Real.sin Real.pi x k).Fp_real
          + (radix4_acc Real.cos Real.sin Real.pi x k).Fpp_real)
          + ((radix4_acc Real.cos Real.sin Real.pi x k).Gp_real
          + (radix4_acc Real.cos Real.sin Real.pi x k).Gpp_real))
        + powf2 (((radix4_acc Real.cos Real.sin Real.pi x k).Fp_imag
          + (radix4_acc Real.cos Real.sin Real.pi x k).Fpp_imag)
          + ((radix4_acc Real.cos Real.sin Real.pi x k).Gp_imag
          + (radix4_acc Real.cos Real.sin Real.pi x k).Gpp_imag)))
      = Complex.abs (∑ m in Finset.range 256, (x.getD m 0 : ℂ) * Complex.exp
          (((2 * Real.pi * ((k + 64 * 0 : ℕ) : ℝ) * (m : ℝ) / 256 : ℝ) : ℂ) * Complex.I)) ∧
    Real.sqrt (powf2 (((radix4_acc Real.cos Real.sin Real.pi x k).Fp_real
          - (radix4_acc Real.cos Real.sin Real.pi x k).Fpp_real)
          - ((radix4_acc Real.cos Real.sin Real.pi x k).Gp_imag
          - (radix4_acc Real.cos Real.sin Real.pi x k).Gpp_imag))
        + powf2 (((radix4_acc Real.cos Real.sin Real.pi x k).Fp_imag
          - (radix4_acc Real.cos Real.sin Real.pi x k).Fpp_imag)
          - ((radix4_acc Real.cos Real.sin Real.pi x k).Gpp_real
          - (radix4_acc Real.cos Real.sin Real.pi x k).Gp_real)))
      = Complex.abs (∑ m in Finset.range 256, (x.getD m 0 : ℂ) * Complex.exp
          (((2 * Real.pi * ((k + 64 * 1 : ℕ) : ℝ) * (m : ℝ) / 256 : ℝ) : ℂ) * Complex.I)) ∧
    Real.sqrt (powf2 (((radix4_acc Real.cos Real.sin Real.pi x k).Fp_real
          + (radix4_acc Real.cos Real.sin Real.pi x k).Fpp_real)
          - ((radix4_acc Real.cos Real.sin Real.pi x k).Gp_real
          + (radix4_acc Real.cos Real.sin Real.pi x k).Gpp_real))
        + powf2 (((radix4_acc Real.cos Real.sin Real.pi x k).Fp_imag
          + (radix4_acc Real.cos Real.sin Real.pi x k).Fpp_imag)
          - ((radix4_acc Real.cos Real.sin Real.pi x k).Gp_imag
          + (radix4_acc Real.cos Real.sin Real.pi x k).Gpp_imag)))
      = Complex.abs (∑ m in Finset.range 256, (x.getD m 0 : ℂ) * Complex.exp
          (((2 * Real.pi * ((k + 64 * 2 : ℕ) : ℝ) * (m : ℝ) / 256 : ℝ) : ℂ) * Complex.I)) ∧
    Real.sqrt (powf2 (((radix4_acc Real.cos Real.sin Real.pi x k).Fp_real
          - (radix4_acc Real.cos Real.sin Real.pi x k).Fpp_real)
          + ((radix4_acc Real.cos Real.sin Real.pi x k).Gp_imag
          - (radix4_acc Real.cos Real.sin Real.pi x k).Gpp_imag))
        + powf2 (((radix4_acc Real.cos Real.sin Real.pi x k).Fp_imag
          - (radix4_acc Real.cos Real.sin Real.pi x k).Fpp_imag)
          + (- (radix4_acc Real.cos Real.sin Real.pi x k).Gp_real
          + (radix4_acc Real.cos Real.sin Real.pi x k).Gpp_real)))
      = Complex.abs (∑ m in Finset.range 256, (x.getD m 0 : ℂ) * Complex.exp
          (((2 * Real.pi * ((k + 64 * 3 : ℕ) : ℝ) * (m : ℝ) / 256 : ℝ) : ℂ) * Complex.I)) := by
  rw [radix4_acc_real]
  simp only [powf2]
  rw [radix4_decomp (fun n => x.getD n 0) k 0, radix4_decomp (fun n => x.getD n 0) k 1,
    radix4_decomp (fun n => x.getD n 0) k 2, radix4_decomp (fun n => x.getD n 0) k 3]
  exact ⟨(butterfly_abs_0 _ _ _ _ _ _ _ _).symm, (butterfly_abs_1 _ _ _ _ _ _ _ _).symm,
    (butterfly_abs_2 _ _ _ _ _ _ _ _).symm, (butterfly_abs_3 _ _ _ _ _ _ _ _).symm⟩

/-- Every bin written by `dft_calc_radix4` (over `ℝ`, with `PI = π`) is the
    magnitude of the direct DFT coefficient. -/
theorem dft_calc_radix4_getD (out x : List ℝ) (hout : out.length = 256) (j : Nat)
    (hj : j < 256) :
    (dft_calc_radix4 Real.cos Real.sin Real.sqrt Real.pi out x).getD j 0
      = Complex.abs (∑ n in Finset.range 256,
          (x.getD n 0 : ℂ) * Complex.exp (-2 * Real.pi * Complex.I * j * n / 256)) := by
  have hloop := (foldl_set4_range
    (fun k => Real.sqrt (powf2 (((radix4_acc Real.cos Real.sin Real.pi x k).Fp_real
          + (radix4_acc Real.cos Real.sin Real.pi x k).Fpp_real)
          + ((radix4_acc Real.cos Real.sin Real.pi x k).Gp_real
          + (radix4_acc Real.cos Real.sin Real.pi x k).Gpp_real))
        + powf2 (((radix4_acc Real.cos Real.sin Real.pi x k).Fp_imag
          + (radix4_acc Real.cos Real.sin Real.pi x k).Fpp_imag)
          + ((radix4_acc Real.cos Real.sin Real.pi x k).Gp_imag
          + (radix4_acc Real.cos Real.sin Real.pi x k).Gpp_imag))))
    (fun k => Real.sqrt (powf2 (((radix4_acc Real.cos Real.sin Real.pi x k).Fp_real
          - (radix4_acc Real.cos Real.sin Real.pi x k).Fpp_real)
          - ((radix4_acc Real.cos Real.sin Real.pi x k).Gp_imag
          - (radix4_acc Real.cos Real.sin Real.pi x k).Gpp_imag))
        + powf2 (((radix4_acc Real.cos Real.sin Real.pi x k).Fp_imag
          - (radix4_acc Real.cos Real.sin Real.pi x k).Fpp_imag)
          - ((radix4_acc Real.cos Real.sin Real.pi x k).Gpp_real
          - (radix4_acc Real.cos Real.sin Real.pi x k).Gp_real))))
    (fun k => Real.sqrt (powf2 (((radix4_acc Real.cos Real.sin Real.pi x k).Fp_real
          + (radix4_acc Real.cos Real.sin Real.pi x k).Fpp_real)
          - ((radix4_acc Real.cos Real.sin Real.pi x k).Gp_real
          + (radix4_acc Real.cos Real.sin Real.pi x k).Gpp_real))
        + powf2 (((radix4_acc Real.cos Real.sin Real.pi x k).Fp_imag
          + (radix4_acc Real.cos Real.sin Real.pi x k).Fpp_imag)
          - ((radix4_acc Real.cos Real.sin Real.pi x k).Gp_imag
          + (radix4_acc Real.cos Real.sin Real.pi x k).Gpp_imag))))
    (fun k => Real.sqrt (powf2 (((radix4_acc Real.cos Real.sin Real.pi x k).Fp_real
          - (radix4_acc Real.cos Real.sin Real.pi x k).Fpp_real)
          + ((radix4_acc Real.cos Real.sin Real.pi x k).Gp_imag
          - (radix4_acc Real.cos Real.sin Real.pi x k).Gpp_imag))
        + powf2 (((radix4_acc Real.cos Real.sin Real.pi x k).Fp_imag
          - (radix4_acc Real.cos Real.sin Real.pi x k).Fpp_imag)
          + (- (radix4_acc Real.cos Real.sin Real.pi x k).Gp_real
          + (radix4_acc Real.cos Real.sin Real.pi x k).Gpp_real))))
    out hout 64 (le_refl 64)).2 j
  have hq : j / 64 < 4 := by omega
  have hk : j % 64 < 64 := Nat.mod_lt j (by norm_num)
  have hjq : j = j % 64 + 64 * (j / 64) := (Nat.mod_add_div j 64).symm
  obtain ⟨hb0, hb1, hb2, hb3⟩ := radix4_butterfly_abs x (j % 64)
  rw [abs_dft_ref_eq (fun n => x.getD n 0) j]
  have hdef : (dft_calc_radix4 Real.cos Real.sin Real.sqrt Real.pi out x).getD j 0
      = if j < 256 ∧ j % 64 < 64 then _ else out.getD j 0 := hloop
  rw [hdef, if_pos ⟨hj, hk⟩]
  by_cases h0 : j / 64 = 0
  · rw [if_pos h0]
    rw [hb0]
    rw [h0] at hjq
    conv_rhs => rw [hjq]
  · by_cases h1 : j / 64 = 1
    · rw [if_neg h0, if_pos h1]
      rw [hb1]
      rw [h1] at hjq
      conv_rhs => rw [hjq]
    · by_cases h2 : j / 64 = 2
      · rw [if_neg h0, if_neg h1, if_pos h2]
        rw [hb2]
        rw [h2] at hjq
        conv_rhs => rw [hjq]
      · have h3 : j / 64 = 3 := by omega
        rw [if_neg h0, if_neg h1, if_neg h2]
        rw [hb3]
        rw [h3] at hjq
        conv_rhs => rw [hjq]

theorem dft_calc_radix4_length {α : Type} [LinearOrderedField α] (cosf sinf sqrtf : α → α)
    (PI : α) (out x : List α) (hout : out.length = 256) :
    (dft_calc_radix4 cosf sinf sqrtf PI out x).length = 256 :=
  (foldl_set4_range _ _ _ _ out hout 64 (le_refl 64)).1

theorem getD_replicate_zero {α : Type} [LinearOrderedField α] (n j : Nat) :
    (List.replicate n (0 : α)).getD j 0 = 0 := by
  rw [List.getD_eq_getElem?_getD, List.getElem?_replicate]
  split_ifs <;> rfl

theorem signal_DC_removal_zero {α : Type} [LinearOrderedField α] (j : Nat) :
    (signal_DC_removal (List.replicate 256 (0 : α))).getD j 0 = 0 := by
  rw [(signal_DC_removal_spec (List.replicate 256 (0 : α)) (List.length_replicate 256 0)).2 j]
  simp only [getD_replicate_zero, Finset.sum_const_zero, zero_div, sub_zero, ite_self]

/-- The spectrum of the DC-removed all-zero window is all zero. -/
theorem dft_calc_radix4_zero (out : List ℝ) (hout : out.length = 256) (j : Nat) (hj : j < 256) :
    (dft_calc_radix4 Real.cos Real.sin Real.sqrt Real.pi out
      (signal_DC_removal (List.replicate 256 (0 : ℝ)))).getD j 0 = 0 := by
  rw [dft_calc_radix4_getD out _ hout j hj]
  simp only [signal_DC_removal_zero, Complex.ofReal_zero, zero_mul, Finset.sum_const_zero,
    map_zero]

/-! ## The spectrum of a sine window -/

theorem zeta_pow_eq_exp (m : ℕ) :
    Complex.exp (2 * Real.pi * Complex.I / ((256 : ℕ) : ℂ)) ^ m
      = Complex.exp (((2 * Real.pi * (m : ℝ) / 256 : ℝ) : ℂ) * Complex.I) := by
  rw [← Complex.exp_nat_mul]
  congr 1
  push_cast
  ring

theorem zeta_pow_256 : Complex.exp (2 * Real.pi * Complex.I / ((256 : ℕ) : ℂ)) ^ 256 = 1 :=
  (Complex.isPrimitiveRoot_exp 256 (by norm_num)).pow_eq_one

/-- Sum of the `m`-th powers of the 256-th root of unity. -/
theorem geom_zeta (m : ℕ) :
    ∑ n in Finset.range 256, Complex.exp (2 * Real.pi * Complex.I / ((256 : ℕ) : ℂ)) ^ (m * n)
      = if 256 ∣ m then 256 else 0 := by
  have hζ := Complex.isPrimitiveRoot_exp 256 (by norm_num)
  set ζ := Complex.exp (2 * Real.pi * Complex.I / ((256 : ℕ) : ℂ)) with hζdef
  by_cases h : 256 ∣ m
  · rw [if_pos h]
    have h1 : ζ ^ m = 1 := (hζ.pow_eq_one_iff_dvd m).mpr h
    simp [pow_mul, h1]
  · rw [if_neg h]
    have h1 : ζ ^ m ≠ 1 := fun e => h ((hζ.pow_eq_one_iff_dvd m).mp e)
    have h2 : (ζ ^ m) ^ 256 = 1 := by
      rw [← pow_mul, mul_comm, pow_mul, hζ.pow_eq_one, one_pow]
    have h3 := geom_sum_mul (ζ ^ m) 256
    rw [h2, sub_self] at h3
    have h4 : ζ ^ m - 1 ≠ 0 := sub_ne_zero.mpr h1
    have h5 := (mul_eq_zero.mp h3).resolve_right h4
    simpa [pow_mul] using h5

theorem sin_eq_zeta (n : ℕ) :
    ((Real.sin (2 * Real.pi * 8 * (n : ℝ) / 256) : ℝ) : ℂ)
      = (Complex.exp (2 * Real.pi * Complex.I / ((256 : ℕ) : ℂ)) ^ (8 * n)
          - Complex.exp (2 * Real.pi * Complex.I / ((256 : ℕ) : ℂ)) ^ (248 * n))
        / (2 * Complex.I) := by
  set ζ := Complex.exp (2 * Real.pi * Complex.I / ((256 : ℕ) : ℂ)) with hζdef
  have hmul : ζ ^ (248 * n) * ζ ^ (8 * n) = 1 := by
    rw [← pow_add, show 248 * n + 8 * n = 256 * n by ring, pow_mul, zeta_pow_256, one_pow]
  have hne : ζ ^ (8 * n) ≠ 0 := by
    intro e
    rw [e, mul_zero] at hmul
    exact zero_ne_one hmul
  have hinv : ζ ^ (248 * n) = (ζ ^ (8 * n))⁻¹ := eq_inv_of_mul_eq_one_left hmul
  have hexp : ζ ^ (8 * n)
      = Complex.exp (((2 * Real.pi * 8 * (n : ℝ) / 256 : ℝ) : ℂ) * Complex.I) := by
    rw [hζdef, zeta_pow_eq_exp]
    congr 2
    push_cast
    ring
  rw [hinv, hexp, ← Complex.exp_neg, Complex.ofReal_sin, Complex.sin]
  have hI : (2 * Complex.I) ≠ 0 := by
    simp [Complex.I_ne_zero]
  field_simp
  ring_nf
  rw [Complex.I_sq]
  ring

theorem sine_getD (n : Nat) (hn : n < 256) :
    ((List.range 256).map (fun n : ℕ => Real.sin (2 * Real.pi * 8 * (n : ℝ) / 256))).getD n 0
      = Real.sin (2 * Real.pi * 8 * (n : ℝ) / 256) := by
  rw [List.getD_eq_getElem?_getD, List.getElem?_map, List.getElem?_range hn]
  rfl

/-- The (conjugate) DFT sum of the sine window at bin `j`. -/
theorem sine_dft_sum (j : Nat) :
    ∑ m in Finset.range 256,
        ((((List.range 256).map
          (fun n : ℕ => Real.sin (2 * Real.pi * 8 * (n : ℝ) / 256))).getD m 0 : ℝ) : ℂ) *
        Complex.exp (((2 * Real.pi * (j : ℝ) * (m : ℝ) / 256 : ℝ) : ℂ) * Complex.I)
      = ((if 256 ∣ 8 + j then (256 : ℂ) else 0) - (if 256 ∣ 248 + j then (256 : ℂ) else 0))
        / (2 * Complex.I) := by
  rw [← geom_zeta (8 + j), ← geom_zeta (248 + j), ← Finset.sum_sub_distrib, Finset.sum_div]
  apply Finset.sum_congr rfl
  intro m hm
  rw [sine_getD m (Finset.mem_range.mp hm), sin_eq_zeta m]
  have : Complex.exp (((2 * Real.pi * (j : ℝ) * (m : ℝ) / 256 : ℝ) : ℂ) * Complex.I)
      = Complex.exp (2 * Real.pi * Complex.I / ((256 : ℕ) : ℂ)) ^ (j * m) := by
    rw [zeta_pow_eq_exp]
    congr 2
    push_cast
    ring
  rw [this]
  ring

/-- The spectrum of the sine window: 128 at the bins 8 and 248, zero
    elsewhere. -/
theorem sine_spectrum (out : List ℝ) (hout : out.length = 256) (j : Nat) (hj : j < 256) :
    (dft_calc_radix4 Real.cos Real.sin Real.sqrt Real.pi out
      ((List.range 256).map (fun n : ℕ => Real.sin (2 * Real.pi * 8 * (n : ℝ) / 256)))).getD j 0
      = if j = 8 ∨ j = 248 then 128 else 0 := by
  rw [dft_calc_radix4_getD out _ hout j hj, abs_dft_ref_eq (fun n => List.getD _ n 0) j,
    sine_dft_sum j]
  have habs : Complex.abs (2 * Complex.I) = 2 := by simp
  by_cases h8 : j = 8
  · subst h8
    rw [if_neg (by omega), if_pos (by norm_num), if_pos (Or.inl rfl), map_div₀, habs]
    simp
    norm_num
  · by_cases h248 : j = 248
    · subst h248
      rw [if_pos (by norm_num), if_neg (by omega), if_pos (Or.inr rfl), map_div₀, habs]
      simp
      norm_num
    · have h1 : ¬ 256 ∣ 8 + j := by omega
      have h2 : ¬ 256 ∣ 248 + j := by omega
      have h3 : ¬ (j = 8 ∨ j = 248) := by omega
      rw [if_neg h1, if_neg h2, if_neg h3]
      simp

/-! ## Mode check lemmas -/

theorem pb_ISR_of_mem (m : Int) (h0 : 0 ≤ m) (h3 : m ≤ 3) : pb_ISR m = (m + 1) % 4 := by
  have hm : m = 0 ∨ m = 1 ∨ m = 2 ∨ m = 3 := by omega
  rcases hm with h | h | h | h <;> subst h <;> decide

theorem pb_ISR_iter_eq (j : Nat) (m : Int) (h0 : 0 ≤ m) (h3 : m ≤ 3) :
    pb_ISR_iter j m = (m + (j : Int)) % 4 := by
  induction j generalizing m with
  | zero =>
    show m = (m + ((0 : Nat) : Int)) % 4
    simp only [Nat.cast_zero, add_zero]
    omega
  | succ j ih =>
    show pb_ISR_iter j (pb_ISR m) = _
    rw [pb_ISR_of_mem m h0 h3, ih _ (by omega) (by omega)]
    push_cast
    omega

theorem pb_ISR_iter_add (n1 n2 : Nat) (m : Int) :
    pb_ISR_iter n2 (pb_ISR_iter n1 m) = pb_ISR_iter (n1 + n2) m := by
  induction n1 generalizing m with
  | zero => simp [pb_ISR_iter]
  | succ n ih =>
    show pb_ISR_iter n2 (pb_ISR_iter n (pb_ISR m)) = _
    rw [ih, show n + 1 + n2 = (n + n2) + 1 by omega]
    rfl

theorem samples_per_lcd_char_inj (a b : Int) (ha0 : 0 ≤ a) (ha3 : a ≤ 3) (hb0 : 0 ≤ b)
    (hb3 : b ≤ 3) : samples_per_lcd_char a = samples_per_lcd_char b ↔ a = b := by
  constructor
  · intro h
    rw [samples_per_lcd_char_cases, samples_per_lcd_char_cases] at h
    have ha : a = 0 ∨ a = 1 ∨ a = 2 ∨ a = 3 := by omega
    have hb : b = 0 ∨ b = 1 ∨ b = 2 ∨ b = 3 := by omega
    rcases ha with ha | ha | ha | ha <;> rcases hb with hb | hb | hb | hb <;> subst ha <;>
      subst hb <;> first | rfl | (exfalso; revert h; decide)
  · intro h
    rw [h]

theorem main_tail_samp_char_eq (n1 n2 : Nat) (s : MainState) :
    (main_tail n1 n2 s).samp_char = samples_per_lcd_char (pb_ISR_iter (n1 + n2) s.mode) ∧
    (main_tail n1 n2 s).state.mode = pb_ISR_iter (n1 + n2) s.mode := by
  unfold main_tail
  split_ifs
  · exact ⟨congrArg samples_per_lcd_char (pb_ISR_iter_add n1 n2 s.mode),
      pb_ISR_iter_add n1 n2 s.mode⟩
  · exact ⟨rfl, rfl⟩

theorem show_mode_arg_cases (mode : Int) :
    show_mode_arg mode =
      if mode = 0 then 6000 else if mode = 1 then 9000 else if mode = 2 then 18000
      else 24000 := by
  unfold show_mode_arg
  rw [samples_per_lcd_char_cases]
  split_ifs <;> decide

theorem show_mode_arg_inj (a b : Int) (ha0 : 0 ≤ a) (ha3 : a ≤ 3) (hb0 : 0 ≤ b)
    (hb3 : b ≤ 3) : show_mode_arg a = show_mode_arg b ↔ a = b := by
  constructor
  · intro h
    rw [show_mode_arg_cases, show_mode_arg_cases] at h
    have ha : a = 0 ∨ a = 1 ∨ a = 2 ∨ a = 3 := by omega
    have hb : b = 0 ∨ b = 1 ∨ b = 2 ∨ b = 3 := by omega
    rcases ha with ha | ha | ha | ha <;> rcases hb with hb | hb | hb | hb <;> subst ha <;>
      subst hb <;> first | rfl | (exfalso; revert h; decide)
  · intro h
    rw [h]

/-- What `show_mode` announces: the frequency of the mode current at the
    call in line 283 when the check reports, nothing otherwise. -/
theorem main_tail_announced (n1 n2 : Nat) (s : MainState) :
    (s.now_mode ≠ s.mode →
      (main_tail n1 n2 s).announced = some (show_mode_arg (pb_ISR_iter n1 s.mode))) ∧
    (s.now_mode = s.mode → (main_tail n1 n2 s).announced = none) := by
  constructor
  · intro h
    unfold main_tail
    rw [if_pos h]
  · intro h
    unfold main_tail
    rw [if_neg (not_not.mpr h)]

theorem litRows_table :
    litRows 0 = 1 ∧ litRows 1 = 2 ∧ litRows 2 = 3 ∧ litRows 3 = 4 ∧ litRows 4 = 5 ∧
    litRows 5 = 6 ∧ litRows 6 = 7 ∧ litRows 7 = 8 := by
  decide

/-! ## Further lemmas on the pipeline -/

/-- Every bin written by `dft_calc_radix4` is a value of `sqrtf`. -/
theorem dft_calc_radix4_getD_sqrtf {α : Type} [LinearOrderedField α] (cosf sinf sqrtf : α → α)
    (PI : α) (out x : List α) (hout : out.length = 256) (j : Nat) (hj : j < 256) :
    ∃ y, (dft_calc_radix4 cosf sinf sqrtf PI out x).getD j 0 = sqrtf y := by
  have hloop := (foldl_set4_range
    (fun k => sqrtf (powf2 (((radix4_acc cosf sinf PI x k).Fp_real
          + (radix4_acc cosf sinf PI x k).Fpp_real)
          + ((radix4_acc cosf sinf PI x k).Gp_real + (radix4_acc cosf sinf PI x k).Gpp_real))
        + powf2 (((radix4_acc cosf sinf PI x k).Fp_imag
          + (radix4_acc cosf sinf PI x k).Fpp_imag)
          + ((radix4_acc cosf sinf PI x k).Gp_imag + (radix4_acc cosf sinf PI x k).Gpp_imag))))
    (fun k => sqrtf (powf2 (((radix4_acc cosf sinf PI x k).Fp_real
          - (radix4_acc cosf sinf PI x k).Fpp_real)
          - ((radix4_acc cosf sinf PI x k).Gp_imag - (radix4_acc cosf sinf PI x k).Gpp_imag))
        + powf2 (((radix4_acc cosf sinf PI x k).Fp_imag
          - (radix4_acc cosf sinf PI x k).Fpp_imag)
          - ((radix4_acc cosf sinf PI x k).Gpp_real - (radix4_acc cosf sinf PI x k).Gp_real))))
    (fun k => sqrtf (powf2 (((radix4_acc cosf sinf PI x k).Fp_real
          + (radix4_acc cosf sinf PI x k).Fpp_real)
          - ((radix4_acc cosf sinf PI x k).Gp_real + (radix4_acc cosf sinf PI x k).Gpp_real))
        + powf2 (((radix4_acc cosf sinf PI x k).Fp_imag
          + (radix4_acc cosf sinf PI x k).Fpp_imag)
          - ((radix4_acc cosf sinf PI x k).Gp_imag + (radix4_acc cosf sinf PI x k).Gpp_imag))))
    (fun k => sqrtf (powf2 (((radix4_acc cosf sinf PI x k).Fp_real
          - (radix4_acc cosf sinf PI x k).Fpp_real)
          + ((radix4_acc cosf sinf PI x k).Gp_imag - (radix4_acc cosf sinf PI x k).Gpp_imag))
        + powf2 (((radix4_acc cosf sinf PI x k).Fp_imag
          - (radix4_acc cosf sinf PI x k).Fpp_imag)
          + (- (radix4_acc cosf sinf PI x k).Gp_real + (radix4_acc cosf sinf PI x k).Gpp_real))))
    out hout 64 (le_refl 64)).2 j
  have hk : j % 64 < 64 := Nat.mod_lt j (by norm_num)
  have hdef : (dft_calc_radix4 cosf sinf sqrtf PI out x).getD j 0
      = if j < 256 ∧ j % 64 < 64 then _ else out.getD j 0 := hloop
  rw [hdef, if_pos ⟨hj, hk⟩]
  split_ifs
  · exact ⟨_, rfl⟩
  · exact ⟨_, rfl⟩
  · exact ⟨_, rfl⟩
  · exact ⟨_, rfl⟩

theorem isBufMax_dft_max {α : Type} [LinearOrderedField α] (d : List α)
    (h : dft_max d ≠ 0) : IsBufMax d (dft_max d) := by
  obtain ⟨_, hle, hex⟩ := foldl_max_spec d DFT_SIZE
  rcases hex with h0 | hk
  · exact absurd h0 h
  · exact ⟨hk, hle⟩

theorem dft_max_pos_of_exists {α : Type} [LinearOrderedField α] (d : List α)
    (h : ∃ k, k < 256 ∧ 0 < d.getD k 0) : 0 < dft_max d := by
  obtain ⟨k, hk, hpos⟩ := h
  exact lt_of_lt_of_le hpos ((foldl_max_spec d DFT_SIZE).2.1 k hk)

/-- The first loop of `dft_normalize_pix` skips bin 0 when that bin is zero. -/
theorem dft_max_skip_zero_bin {α : Type} [LinearOrderedField α] (d : List α)
    (h : d.getD 0 0 = 0) :
    dft_max d = ((List.range 255).map Nat.succ).foldl
      (fun mx k => if d.getD k 0 > mx then d.getD k 0 else mx) 0 := by
  unfold dft_max
  have : List.range DFT_SIZE = 0 :: (List.range 255).map Nat.succ := by
    unfold DFT_SIZE
    rw [List.range_succ_eq_map]
  rw [this, List.foldl_cons, h, if_neg (lt_irrefl 0)]

/-- The DC-removed window sums to zero. -/
theorem signal_DC_removal_sum {α : Type} [LinearOrderedField α] (x : List α)
    (hx : x.length = 256) :
    ∑ i in Finset.range 256, (signal_DC_removal x).getD i 0 = 0 := by
  have hg : ∀ i, i ∈ Finset.range 256 → (signal_DC_removal x).getD i 0
      = x.getD i 0 - (∑ j in Finset.range 256, x.getD j 0) / 256 := by
    intro i hi
    have := (signal_DC_removal_spec x hx).2 i
    rw [if_pos (show i < DFT_SIZE from Finset.mem_range.mp hi)] at this
    simpa [DFT_SIZE] using this
  rw [Finset.sum_congr rfl hg, Finset.sum_sub_distrib, Finset.sum_const, Finset.card_range]
  simp only [nsmul_eq_mul, Nat.cast_ofNat]
  rw [mul_div_cancel₀ _ (by norm_num : (256 : α) ≠ 0), sub_self]

theorem signal_DC_removal_getD {α : Type} [LinearOrderedField α] (x : List α)
    (hx : x.length = 256) (i : Nat) (hi : i < 256) :
    (signal_DC_removal x).getD i 0
      = x.getD i 0 - (∑ j in Finset.range 256, x.getD j 0) / 256 := by
  have := (signal_DC_removal_spec x hx).2 i
  rw [if_pos (show i < DFT_SIZE from hi)] at this
  simpa [DFT_SIZE] using this

/-- The twiddle factor of the conjugate sum as a power of the root of unity. -/
theorem exp_eq_zeta_pow (k n : ℕ) :
    Complex.exp (((2 * Real.pi * (k : ℝ) * (n : ℝ) / 256 : ℝ) : ℂ) * Complex.I)
      = Complex.exp (2 * Real.pi * Complex.I / ((256 : ℕ) : ℂ)) ^ (k * n) := by
  rw [zeta_pow_eq_exp]
  congr 2
  push_cast
  ring

/-- Bin 0 of the spectrum of a DC-removed window is zero. -/
theorem dft_dc_removed_bin0 (out x : List ℝ) (hout : out.length = 256) (hx : x.length = 256) :
    (dft_calc_radix4 Real.cos Real.sin Real.sqrt Real.pi out (signal_DC_removal x)).getD 0 0
      = 0 := by
  rw [dft_calc_radix4_getD out _ hout 0 (by norm_num)]
  have : ∀ n : ℕ, Complex.exp (-2 * Real.pi * Complex.I * ((0 : ℕ) : ℂ) * (n : ℂ) / 256) = 1 := by
    intro n
    simp
  simp only [this, mul_one]
  rw [← Complex.ofReal_sum, signal_DC_removal_sum x hx]
  simp

/-- DC removal does not change the bins `1..255` of the spectrum. -/
theorem dft_dc_removed_getD (out out' x : List ℝ) (hout : out.length = 256)
    (hout' : out'.length = 256) (hx : x.length = 256) (k : Nat) (hk1 : 1 ≤ k) (hk : k < 256) :
    (dft_calc_radix4 Real.cos Real.sin Real.sqrt Real.pi out (signal_DC_removal x)).getD k 0
      = (dft_calc_radix4 Real.cos Real.sin Real.sqrt Real.pi out' x).getD k 0 := by
  rw [dft_calc_radix4_getD out _ hout k hk, dft_calc_radix4_getD out' _ hout' k hk,
    abs_dft_ref_eq (fun n => (signal_DC_removal x).getD n 0) k,
    abs_dft_ref_eq (fun n => x.getD n 0) k]
  apply congrArg Complex.abs
  have hz : ∑ n in Finset.range 256,
      Complex.exp (2 * Real.pi * Complex.I / ((256 : ℕ) : ℂ)) ^ (k * n) = 0 := by
    rw [geom_zeta k, if_neg (by omega)]
  have hterm : ∀ n, n ∈ Finset.range 256 →
      (((signal_DC_removal x).getD n 0 : ℝ) : ℂ) *
        Complex.exp (((2 * Real.pi * (k : ℝ) * (n : ℝ) / 256 : ℝ) : ℂ) * Complex.I)
      = ((x.getD n 0 : ℝ) : ℂ) *
          Complex.exp (((2 * Real.pi * (k : ℝ) * (n : ℝ) / 256 : ℝ) : ℂ) * Complex.I)
        - (((∑ j in Finset.range 256, x.getD j 0) / 256 : ℝ) : ℂ) *
          Complex.exp (2 * Real.pi * Complex.I / ((256 : ℕ) : ℂ)) ^ (k * n) := by
    intro n hn
    rw [signal_DC_removal_getD x hx n (Finset.mem_range.mp hn), ← exp_eq_zeta_pow]
    push_cast
    ring
  rw [Finset.sum_congr rfl hterm, Finset.sum_sub_distrib, ← Finset.mul_sum, hz, mul_zero,
    sub_zero]

/-- Mirror symmetry of the spectrum of a real window. -/
theorem dft_mirror_getD (out x : List ℝ) (hout : out.length = 256) (k : Nat) (hk1 : 1 ≤ k)
    (hk : k ≤ 255) :
    (dft_calc_radix4 Real.cos Real.sin Real.sqrt Real.pi out x).getD (256 - k) 0
      = (dft_calc_radix4 Real.cos Real.sin Real.sqrt Real.pi out x).getD k 0 := by
  rw [dft_calc_radix4_getD out _ hout (256 - k) (by omega),
    dft_calc_radix4_getD out _ hout k (by omega), abs_dft_ref_eq (fun n => x.getD n 0) k]
  apply congrArg Complex.abs
  apply Finset.sum_congr rfl
  intro n _
  apply congrArg (fun z => ((x.getD n 0 : ℝ) : ℂ) * z)
  have hcast : ((256 - k : ℕ) : ℂ) = 256 - (k : ℂ) := by
    rw [Nat.cast_sub (by omega)]
    norm_num
  have he : -2 * (Real.pi : ℂ) * Complex.I * ((256 - k : ℕ) : ℂ) * (n : ℂ) / 256
      = ((2 * Real.pi * (k : ℝ) * (n : ℝ) / 256 : ℝ) : ℂ) * Complex.I
        - (n : ℂ) * (2 * Real.pi * Complex.I) := by
    rw [hcast]
    push_cast
    ring
  rw [he, Complex.exp_sub, Complex.exp_nat_mul_two_pi_mul_I, div_one]

/-! ## Scaling the window -/

theorem getD_map_mul (c : ℝ) (x : List ℝ) (j : Nat) :
    (x.map (fun v => c * v)).getD j 0 = c * x.getD j 0 := by
  rw [List.getD_eq_getElem?_getD, List.getD_eq_getElem?_getD, List.getElem?_map]
  cases x[j]? with
  | none => simp
  | some v => rfl

theorem signal_DC_removal_scale (c : ℝ) (x : List ℝ) (hx : x.length = 256) (j : Nat)
    (hj : j < 256) :
    (signal_DC_removal (x.map (fun v => c * v))).getD j 0
      = c * (signal_DC_removal x).getD j 0 := by
  rw [signal_DC_removal_getD _ (by rw [List.length_map]; exact hx) j hj,
    signal_DC_removal_getD x hx j hj]
  simp only [getD_map_mul, ← Finset.mul_sum]
  ring

/-- The spectrum of the DC-removed scaled window is the scaled spectrum. -/
theorem dft_scale_getD (c : ℝ) (hc : 0 < c) (out out' x : List ℝ) (hout : out.length = 256)
    (hout' : out'.length = 256) (hx : x.length = 256) (j : Nat) (hj : j < 256) :
    (dft_calc_radix4 Real.cos Real.sin Real.sqrt Real.pi out'
        (signal_DC_removal (x.map (fun v => c * v)))).getD j 0
      = c * (dft_calc_radix4 Real.cos Real.sin Real.sqrt Real.pi out
        (signal_DC_removal x)).getD j 0 := by
  rw [dft_calc_radix4_getD out' _ hout' j hj, dft_calc_radix4_getD out _ hout j hj]
  have hterm : ∀ n, n ∈ Finset.range 256 →
      (((signal_DC_removal (x.map (fun v => c * v))).getD n 0 : ℝ) : ℂ)
        * Complex.exp (-2 * Real.pi * Complex.I * j * n / 256)
      = (c : ℂ) * ((((signal_DC_removal x).getD n 0 : ℝ) : ℂ)
        * Complex.exp (-2 * Real.pi * Complex.I * j * n / 256)) := by
    intro n hn
    rw [signal_DC_removal_scale c x hx n (Finset.mem_range.mp hn)]
    push_cast
    ring
  rw [Finset.sum_congr rfl hterm, ← Finset.mul_sum, map_mul, Complex.abs_ofReal,
    abs_of_pos hc]

/-- The heights of `show_dft` depend only on the ratios of the bins to the
    maximum: scaling a spectrum with positive maximum by `c > 0` leaves them
    unchanged. -/
theorem show_dft_scale (mode : Int) (c : ℝ) (hc : 0 < c) (s sc : List ℝ)
    (hs : s.length = 256) (hsc : sc.length = 256)
    (hscale : ∀ j, j < 256 → sc.getD j 0 = c * s.getD j 0)
    (hpos : ∃ k, k < 256 ∧ 0 < s.getD k 0) :
    ∃ hts, show_dft mode s = Except.ok hts ∧ show_dft mode sc = Except.ok hts := by
  have hM : 0 < dft_max s := dft_max_pos_of_exists s hpos
  have hmax : IsBufMax s (dft_max s) := isBufMax_dft_max s (ne_of_gt hM)
  have hmaxc : IsBufMax sc (c * dft_max s) := by
    obtain ⟨⟨k0, hk0, hk0M⟩, hle⟩ := hmax
    refine ⟨⟨k0, hk0, ?_⟩, fun k hk => ?_⟩
    · rw [hscale k0 hk0, hk0M]
    · rw [hscale k hk]
      exact mul_le_mul_of_nonneg_left (hle k hk) (le_of_lt hc)
  obtain ⟨d', hd', hlen', hval, _, _⟩ := dft_normalize_pix_of_max s (dft_max s) hs hmax hM
  obtain ⟨dc', hdc', hlenc', hvalc, _, _⟩ :=
    dft_normalize_pix_of_max sc (c * dft_max s) hsc hmaxc (mul_pos hc hM)
  have hsame : ∀ j, j < 256 → dc'.getD j 0 = d'.getD j 0 := by
    intro j hj
    rw [hvalc j hj, hval j hj, hscale j hj]
    field_simp
    ring
  refine ⟨_, show_dft_of_normalized mode s d' hd' hlen', ?_⟩
  rw [show_dft_of_normalized mode sc dc' hdc' hlenc']
  apply congrArg Except.ok
  apply List.map_congr_left
  intro col hcol
  have hcol16 : col < 16 := by simpa [NUM_COLS_LCD] using hcol
  obtain ⟨G, hG, hGpos, hG8⟩ := samples_per_lcd_char_nat mode
  rw [hG, Int.toNat_natCast]
  apply congrArg float_to_int
  apply congrArg (fun t => t / (G : ℝ))
  apply Finset.sum_congr rfl
  intro i hi
  have hi' : i < G := Finset.mem_range.mp hi
  exact hsame _ (by nlinarith)

theorem sine_length :
    ((List.range 256).map (fun n : ℕ => Real.sin (2 * Real.pi * 8 * (n : ℝ) / 256))).length
      = 256 := by
  rw [List.length_map, List.length_range]

/-! ## The claims -/

/-- C1: for every sample window `x` of length 256 and every bin `k < 256`,
    the value `dft_calc_radix4` writes to `dft_abs[k]` (arithmetic over `ℝ`,
    `PI` read as `π`) equals the magnitude of the direct DFT coefficient
    `|Σ_{n<256} x[n]·exp(-2πi·k·n/256)|`; as `k` ranges over `[0, 256)` this
    covers the four butterfly outputs `k`, `k+64`, `k+128`, `k+192`. -/
theorem dft_calc_radix4_eq_direct_dft (dft_abs x : List ℝ) (hout : dft_abs.length = 256)
    (_hx : x.length = 256) (k : Nat) (hk : k < 256) :
    (dft_calc_radix4 Real.cos Real.sin Real.sqrt Real.pi dft_abs x).length = 256 ∧
    (dft_calc_radix4 Real.cos Real.sin Real.sqrt Real.pi dft_abs x).getD k 0
      = Complex.abs (∑ n in Finset.range 256,
          (x.getD n 0 : ℂ) * Complex.exp (-2 * Real.pi * Complex.I * k * n / 256)) :=
  ⟨dft_calc_radix4_length _ _ _ _ dft_abs x hout, dft_calc_radix4_getD dft_abs x hout k hk⟩

theorem dft_calc_radix4_eq_direct_dft_witness :
    (List.replicate 256 (0 : ℝ)).length = 256 ∧ (List.replicate 256 (1 : ℝ)).length = 256 ∧
    200 < 256 ∧
    (dft_calc_radix4 Real.cos Real.sin Real.sqrt Real.pi (List.replicate 256 (0 : ℝ))
        (List.replicate 256 (1 : ℝ))).getD 200 0
      = Complex.abs (∑ n in Finset.range 256,
          ((List.replicate 256 (1 : ℝ)).getD n 0 : ℂ)
            * Complex.exp (-2 * Real.pi * Complex.I * (200 : ℕ) * n / 256)) :=
  ⟨List.length_replicate 256 0, List.length_replicate 256 1, by decide,
    (dft_calc_radix4_eq_direct_dft (List.replicate 256 (0 : ℝ)) (List.replicate 256 (1 : ℝ))
      (List.length_replicate 256 0) (List.length_replicate 256 1) 200 (by decide)).2⟩

/-- C2: on a buffer of `DFT_SIZE = 256` samples `signal_DC_removal` replaces
    every `x[i]` by `x[i] - (Σ x)/256`, keeps the length, and the arithmetic
    mean of the result is zero (exact arithmetic in an ordered field). -/
theorem signal_DC_removal_zero_mean {α : Type} [LinearOrderedField α] (x : List α)
    (hx : x.length = 256) :
    (signal_DC_removal x).length = 256 ∧
    (∀ i, i < 256 → (signal_DC_removal x).getD i 0
      = x.getD i 0 - (∑ j in Finset.range 256, x.getD j 0) / 256) ∧
    (∑ i in Finset.range 256, (signal_DC_removal x).getD i 0) / 256 = 0 := by
  obtain ⟨hl, hg⟩ := signal_DC_removal_spec x hx
  have hg' : ∀ i, i < 256 → (signal_DC_removal x).getD i 0
      = x.getD i 0 - (∑ j in Finset.range 256, x.getD j 0) / 256 := by
    intro i hi
    have := hg i
    rw [if_pos (show i < DFT_SIZE from hi)] at this
    simpa [DFT_SIZE] using this
  refine ⟨hl, hg', ?_⟩
  rw [Finset.sum_congr rfl (fun i hi => hg' i (Finset.mem_range.mp hi))]
  rw [Finset.sum_sub_distrib, Finset.sum_const, Finset.card_range]
  simp only [nsmul_eq_mul, Nat.cast_ofNat]
  rw [mul_div_cancel₀ _ (by norm_num : (256 : α) ≠ 0), sub_self, zero_div]

theorem signal_DC_removal_zero_mean_witness :
    (List.replicate 256 (1 : ℚ)).length = 256 ∧
    (∑ i in Finset.range 256,
      (signal_DC_removal (List.replicate 256 (1 : ℚ))).getD i 0) / 256 = 0 :=
  ⟨List.length_replicate 256 1,
    (signal_DC_removal_zero_mean (List.replicate 256 (1 : ℚ)) (List.length_replicate 256 1)).2.2⟩

/-- C3: for a spectrum buffer of `DFT_SIZE = 256` elements whose maximum `M`
    is strictly positive (in particular for one with non-negative entries and
    such a maximum), `dft_normalize_pix` succeeds, every element of the result
    equals `value*16/M`, and the maximum of the result is exactly
    `NUM_PIX_VERT = 16`. -/
theorem dft_normalize_pix_max {α : Type} [LinearOrderedField α] (d : List α) (M : α)
    (hlen : d.length = 256) (hmax : IsBufMax d M) (hpos : 0 < M) :
    ∃ d', dft_normalize_pix d = Except.ok d' ∧ d'.length = 256 ∧
      (∀ k, k < 256 → d'.getD k 0 = d.getD k 0 * 16 / M) ∧
      IsBufMax d' (NUM_PIX_VERT : α) ∧ (NUM_PIX_VERT : α) = 16 :=
  dft_normalize_pix_of_max d M hlen hmax hpos

theorem dft_normalize_pix_max_witness :
    (List.replicate 256 (3 : ℚ)).length = 256 ∧ IsBufMax (List.replicate 256 (3 : ℚ)) 3 ∧
    (0 : ℚ) < 3 ∧
    ∃ d', dft_normalize_pix (List.replicate 256 (3 : ℚ)) = Except.ok d' ∧ d'.length = 256 ∧
      (∀ k, k < 256 → d'.getD k 0 = (List.replicate 256 (3 : ℚ)).getD k 0 * 16 / 3) ∧
      IsBufMax d' (NUM_PIX_VERT : ℚ) ∧ (NUM_PIX_VERT : ℚ) = 16 :=
  ⟨List.length_replicate 256 3, isBufMax_replicate 3, by norm_num,
    dft_normalize_pix_max (List.replicate 256 (3 : ℚ)) 3 (List.length_replicate 256 3)
      (isBufMax_replicate 3) (by norm_num)⟩

/-- C4: the mode starts at `MODE_8kHz = 1`; on every reachable mode a
    notification is `(mode + 1) mod 4`; the reachable modes are exactly
    `0, 1, 2, 3`; from every reachable mode four notifications, and not one,
    two or three, lead back to it. -/
theorem mode_cycle_four :
    mode_init = 1 ∧
    (∀ m, Reachable m → pb_ISR m = (m + 1) % 4) ∧
    (∀ m, Reachable m ↔ (m = 0 ∨ m = 1 ∨ m = 2 ∨ m = 3)) ∧
    (∀ m, Reachable m → pb_ISR_iter 4 m = m ∧ pb_ISR_iter 1 m ≠ m ∧
      pb_ISR_iter 2 m ≠ m ∧ pb_ISR_iter 3 m ≠ m) := by
  refine ⟨rfl, ?_, reachable_iff, ?_⟩
  · intro m hm
    rcases (reachable_iff m).mp hm with h | h | h | h <;> subst h <;> decide
  · intro m hm
    rcases (reachable_iff m).mp hm with h | h | h | h <;> subst h <;> decide

/-- C5: for each of the four modes the group size computed by
    `samples_per_lcd_char` (with its truncating integer divisions) equals the
    group size of the specification computed with exact division, and is
    2, 3, 6, 8 for the modes 0, 1, 2, 3. -/
theorem samples_per_lcd_char_eq_spec (mode : Int) (h0 : 0 ≤ mode) (h3 : mode ≤ 3) :
    samples_per_lcd_char mode = groupSize_spec mode ∧
    samples_per_lcd_char mode =
      (if mode = 0 then 2 else if mode = 1 then 3 else if mode = 2 then 6 else 8) := by
  rw [groupSize_spec_cases mode h0 h3, samples_per_lcd_char_cases]
  exact ⟨rfl, rfl⟩

theorem samples_per_lcd_char_eq_spec_witness :
    (0 : Int) ≤ 3 ∧ (3 : Int) ≤ 3 ∧ samples_per_lcd_char 3 = groupSize_spec 3 ∧
    samples_per_lcd_char 3 =
      (if (3 : Int) = 0 then 2 else if (3 : Int) = 1 then 3 else if (3 : Int) = 2 then 6 else 8) :=
  ⟨by decide, by decide, samples_per_lcd_char_eq_spec 3 (by decide) (by decide)⟩

/-- C6: for every value of `mode` the group size `g` returned by
    `samples_per_lcd_char` satisfies `1 ≤ g` (so the division by `samp_char`
    has a non-zero divisor) and `g * 16 ≤ 128 = DFT_SIZE/2`; every index `p`
    at which the aggregation loop of `show_dft` reads `dft_abs` lies in
    `[0, 128)`; and on a buffer of `DFT_SIZE` elements `show_dft` never ends
    in an out-of-bounds fault. -/
theorem show_dft_reads_lower_half (mode : Int) :
    1 ≤ samples_per_lcd_char mode ∧
    samples_per_lcd_char mode * (NUM_COLS_LCD : Int) ≤ ((DFT_SIZE / 2 : Nat) : Int) ∧
    ((DFT_SIZE / 2 : Nat) : Int) = 128 ∧
    (∀ k, k < NUM_COLS_LCD → ∀ p, p ∈ show_dft_indices (samples_per_lcd_char mode) k →
      0 ≤ p ∧ p < 128) ∧
    (∀ d : List ℝ, d.length = DFT_SIZE → show_dft mode d ≠ Except.error Fault.outOfBounds) := by
  refine ⟨?_, ?_, by decide, show_dft_indices_bound mode, show_dft_no_outOfBounds mode⟩
  · rcases samples_per_lcd_char_mem mode with h | h | h | h <;> rw [h] <;> decide
  · rcases samples_per_lcd_char_mem mode with h | h | h | h <;> rw [h] <;> decide

/-- C7: for every mode and every spectrum buffer of 256 non-negative elements
    with strictly positive maximum, `show_dft` passes 16 heights to
    `print_bar`; the height of column `c` is the integer part of the mean of
    the `g` consecutive normalised bins starting at `c*g` (`g` the group size),
    that mean is not negative (so truncation is the floor), and the height lies
    in `[0, 16]`. -/
theorem show_dft_heights_mean {α : Type} [LinearOrderedField α] [FloorRing α] (mode : Int)
    (d : List α) (M : α) (hlen : d.length = 256) (hnn : ∀ k, k < 256 → 0 ≤ d.getD k 0)
    (hmax : IsBufMax d M) (hpos : 0 < M) :
    ∃ d' hs, dft_normalize_pix d = Except.ok d' ∧ show_dft mode d = Except.ok hs ∧
      hs.length = 16 ∧
      ∀ c, c < 16 →
        0 ≤ (∑ i in Finset.range (samples_per_lcd_char mode).toNat,
              d'.getD ((samples_per_lcd_char mode).toNat * c + i) 0)
              / (((samples_per_lcd_char mode).toNat : Nat) : α) ∧
        hs.getD c 0 = ⌊(∑ i in Finset.range (samples_per_lcd_char mode).toNat,
              d'.getD ((samples_per_lcd_char mode).toNat * c + i) 0)
              / (((samples_per_lcd_char mode).toNat : Nat) : α)⌋ ∧
        0 ≤ hs.getD c 0 ∧ hs.getD c 0 ≤ 16 := by
  obtain ⟨d', hd', hlen', hval, _, _⟩ := dft_normalize_pix_of_max d M hlen hmax hpos
  refine ⟨d', _, hd', show_dft_of_normalized mode d d' hd' hlen', ?_, ?_⟩
  · simp [NUM_COLS_LCD]
  · intro c hc
    obtain ⟨G, hG, hGpos, hG8⟩ := samples_per_lcd_char_nat mode
    rw [hG, Int.toNat_natCast]
    have hGα : (0 : α) < (G : α) := Nat.cast_pos.mpr hGpos
    have hb : ∀ j, j < G * c + G → 0 ≤ d'.getD j 0 ∧ d'.getD j 0 ≤ 16 := by
      intro j hj
      have hj' : j < 256 := by nlinarith
      rw [hval j hj']
      constructor
      · exact div_nonneg (mul_nonneg (hnn j hj') (by norm_num)) (le_of_lt hpos)
      · rw [div_le_iff₀ hpos]
        have := hmax.2 j hj'
        linarith
    obtain ⟨hs0, hs1⟩ := sum_getD_bounds d' G c 16 hb
    have hmean0 : 0 ≤ (∑ i in Finset.range G, d'.getD (G * c + i) 0) / (G : α) :=
      div_nonneg hs0 (le_of_lt hGα)
    have hmean1 : (∑ i in Finset.range G, d'.getD (G * c + i) 0) / (G : α) ≤ 16 := by
      rw [div_le_iff₀ hGα]
      linarith
    have hget : ((List.range NUM_COLS_LCD).map (fun c =>
        float_to_int ((∑ i in Finset.range G, d'.getD (G * c + i) 0) / (G : α)))).getD c 0
        = ⌊(∑ i in Finset.range G, d'.getD (G * c + i) 0) / (G : α)⌋ := by
      rw [List.getD_eq_getElem?_getD, List.getElem?_map,
        List.getElem?_range (show c < NUM_COLS_LCD from hc)]
      simp only [Option.map_some', Option.getD_some]
      exact float_to_int_of_nonneg _ hmean0
    refine ⟨hmean0, hget, ?_, ?_⟩
    · rw [hget]; exact Int.floor_nonneg.mpr hmean0
    · rw [hget]
      have : (⌊(∑ i in Finset.range G, d'.getD (G * c + i) 0) / (G : α)⌋ : α) ≤ 16 :=
        le_trans (Int.floor_le _) hmean1
      exact_mod_cast this

theorem show_dft_heights_mean_witness :
    (List.replicate 256 (3 : ℚ)).length = 256 ∧
    (∀ k, k < 256 → 0 ≤ (List.replicate 256 (3 : ℚ)).getD k 0) ∧
    IsBufMax (List.replicate 256 (3 : ℚ)) 3 ∧ (0 : ℚ) < 3 ∧
    ∃ hs, show_dft 2 (List.replicate 256 (3 : ℚ)) = Except.ok hs ∧ hs.length = 16 ∧
      ∀ c, c < 16 → 0 ≤ hs.getD c 0 ∧ hs.getD c 0 ≤ 16 :=
  have hnn : ∀ k, k < 256 → 0 ≤ (List.replicate 256 (3 : ℚ)).getD k 0 := fun k hk => by
    rw [getD_replicate_of_lt 3 k hk]; norm_num
  ⟨List.length_replicate 256 3, hnn, isBufMax_replicate 3, by norm_num,
    match show_dft_heights_mean 2 (List.replicate 256 (3 : ℚ)) 3 (List.length_replicate 256 3)
      hnn (isBufMax_replicate 3) (by norm_num) with
    | ⟨_, hs, _, h2, h3, h4⟩ => ⟨hs, h2, h3, fun c hc => (h4 c hc).2.2⟩⟩

/-- C8, evaluated on the code: on the all-zero buffer of `DFT_SIZE` elements
    the maximum found by the first loop is `0` and the first division of
    `dft_normalize_pix` has a zero divisor, so no all-zero buffer is produced. -/
theorem dft_normalize_pix_all_zero :
    dft_max (List.replicate DFT_SIZE (0 : ℝ)) = 0 ∧
    dft_normalize_pix (List.replicate DFT_SIZE (0 : ℝ)) = Except.error Fault.divByZero := by
  have h : dft_max (List.replicate DFT_SIZE (0 : ℝ)) = 0 := by
    apply dft_max_eq_zero_of_all_zero
    intro k _
    exact getD_replicate_zero DFT_SIZE k
  exact ⟨h, dft_normalize_pix_zero_max _ h⟩

/-- C9, evaluated on the code: for every mode, the all-zero window of 256
    samples stays all zero under `signal_DC_removal`, has an all-zero
    spectrum, and `show_dft` then divides by the zero maximum: the cycle ends
    in the fault `divByZero` and passes no heights to `print_bar`. -/
theorem main_cycle_all_zero (mode : Int) (dft_abs : List ℝ) (hout : dft_abs.length = 256) :
    main_cycle Real.cos Real.sin Real.sqrt Real.pi mode dft_abs (List.replicate 256 (0 : ℝ))
      = Except.error Fault.divByZero := by
  unfold main_cycle
  apply show_dft_zero_max
  apply dft_max_eq_zero_of_all_zero
  intro k hk
  exact dft_calc_radix4_zero dft_abs hout k hk

theorem main_cycle_all_zero_witness :
    (List.replicate 256 (0 : ℝ)).length = 256 ∧
    main_cycle Real.cos Real.sin Real.sqrt Real.pi 1 (List.replicate 256 (0 : ℝ))
      (List.replicate 256 (0 : ℝ)) = Except.error Fault.divByZero :=
  ⟨List.length_replicate 256 0,
    main_cycle_all_zero 1 (List.replicate 256 (0 : ℝ)) (List.length_replicate 256 0)⟩

/-- C10: for the window `x[n] = sin(2π·8·n/256)`, `n < 256`, the output of
    `dft_calc_radix4` (over `ℝ`, `PI` read as `π`) is `128` at the bins 8 and
    248, hence equal and non-zero there, and `0` at every other bin; and after
    `dft_normalize_pix` the value at bin 8 is exactly `NUM_PIX_VERT = 16`. -/
theorem sine_bin8_peak (dft_abs : List ℝ) (hout : dft_abs.length = 256) :
    (dft_calc_radix4 Real.cos Real.sin Real.sqrt Real.pi dft_abs
      ((List.range 256).map (fun n : ℕ => Real.sin (2 * Real.pi * 8 * (n : ℝ) / 256)))).getD 8 0
      = 128 ∧
    (dft_calc_radix4 Real.cos Real.sin Real.sqrt Real.pi dft_abs
      ((List.range 256).map (fun n : ℕ => Real.sin (2 * Real.pi * 8 * (n : ℝ) / 256)))).getD 248 0
      = 128 ∧
    (∀ j, j < 256 → j ≠ 8 → j ≠ 248 →
      (dft_calc_radix4 Real.cos Real.sin Real.sqrt Real.pi dft_abs
        ((List.range 256).map (fun n : ℕ => Real.sin (2 * Real.pi * 8 * (n : ℝ) / 256)))).getD j 0
        = 0) ∧
    ∃ d', dft_normalize_pix
        (dft_calc_radix4 Real.cos Real.sin Real.sqrt Real.pi dft_abs
          ((List.range 256).map (fun n : ℕ => Real.sin (2 * Real.pi * 8 * (n : ℝ) / 256))))
        = Except.ok d' ∧
      d'.getD 8 0 = (NUM_PIX_VERT : ℝ) ∧ (NUM_PIX_VERT : ℝ) = 16 := by
  have h8 := sine_spectrum dft_abs hout 8 (by norm_num)
  have h248 := sine_spectrum dft_abs hout 248 (by norm_num)
  rw [if_pos (Or.inl rfl)] at h8
  rw [if_pos (Or.inr rfl)] at h248
  have hmax : IsBufMax (dft_calc_radix4 Real.cos Real.sin Real.sqrt Real.pi dft_abs
      ((List.range 256).map (fun n : ℕ => Real.sin (2 * Real.pi * 8 * (n : ℝ) / 256)))) 128 := by
    refine ⟨⟨8, by decide, h8⟩, fun k hk => ?_⟩
    rw [sine_spectrum dft_abs hout k hk]
    split_ifs <;> norm_num
  obtain ⟨d', hd', _, hval, _, h16⟩ := dft_normalize_pix_of_max _ 128
    (dft_calc_radix4_length _ _ _ _ dft_abs _ hout) hmax (by norm_num)
  refine ⟨h8, h248, fun j hj hj8 hj248 => ?_, d', hd', ?_, h16⟩
  · rw [sine_spectrum dft_abs hout j hj, if_neg (by omega)]
  · rw [hval 8 (by norm_num), h8, h16]
    norm_num

theorem sine_bin8_peak_witness :
    (List.replicate 256 (0 : ℝ)).length = 256 ∧
    (dft_calc_radix4 Real.cos Real.sin Real.sqrt Real.pi (List.replicate 256 (0 : ℝ))
      ((List.range 256).map (fun n : ℕ => Real.sin (2 * Real.pi * 8 * (n : ℝ) / 256)))).getD 8 0
      = 128 :=
  ⟨List.length_replicate 256 0,
    (sine_bin8_peak (List.replicate 256 (0 : ℝ)) (List.length_replicate 256 0)).1⟩

/-- C12: for every mode and every spectrum buffer that is a constant `c > 0`
    across all 256 bins, `show_dft` passes the height `floor(c*16/max)` with
    `max = c`, that is 16, to `print_bar` for every one of the 16 columns. -/
theorem show_dft_constant {α : Type} [LinearOrderedField α] [FloorRing α] (mode : Int)
    (c : α) (hc : 0 < c) :
    show_dft mode (List.replicate 256 c) = Except.ok (List.replicate 16 16) ∧
    IsBufMax (List.replicate 256 c) c ∧ ⌊c * 16 / c⌋ = 16 := by
  obtain ⟨d', hd', hlen', hval, _, _⟩ :=
    dft_normalize_pix_of_max (List.replicate 256 c) c (List.length_replicate 256 c)
      (isBufMax_replicate c) hc
  have h16 : c * 16 / c = 16 := by field_simp
  have hd16 : ∀ j, j < 256 → d'.getD j 0 = 16 := by
    intro j hj
    rw [hval j hj, getD_replicate_of_lt c j hj, h16]
  refine ⟨?_, isBufMax_replicate c, ?_⟩
  · rw [show_dft_of_normalized mode _ d' hd' hlen']
    apply congrArg Except.ok
    rw [List.eq_replicate_iff]
    refine ⟨by simp [NUM_COLS_LCD], ?_⟩
    intro b hb
    obtain ⟨col, hcol, rfl⟩ := List.mem_map.mp hb
    have hcol16 : col < 16 := by simpa [NUM_COLS_LCD] using hcol
    obtain ⟨G, hG, hGpos, hG8⟩ := samples_per_lcd_char_nat mode
    rw [hG, Int.toNat_natCast]
    have hsum : ∑ i in Finset.range G, d'.getD (G * col + i) 0 = (G : α) * 16 := by
      rw [Finset.sum_congr rfl (fun i hi => hd16 (G * col + i)
        (by have := Finset.mem_range.mp hi; nlinarith))]
      simp
    have hG0 : (G : α) ≠ 0 := Nat.cast_ne_zero.mpr (Nat.pos_iff_ne_zero.mp hGpos)
    rw [hsum, mul_div_cancel_left₀ _ hG0, float_to_int_of_nonneg _ (by norm_num)]
    exact Int.floor_eq_iff.mpr ⟨by norm_num, by norm_num⟩
  · rw [h16]
    exact Int.floor_eq_iff.mpr ⟨by norm_num, by norm_num⟩

theorem show_dft_constant_witness :
    (0 : ℚ) < 5 ∧ show_dft 0 (List.replicate 256 (5 : ℚ)) = Except.ok (List.replicate 16 16) :=
  ⟨by norm_num, (show_dft_constant 0 (5 : ℚ) (by norm_num)).1⟩

/-- C13: every one of the 256 values written by `dft_calc_radix4` is not
    negative, for every real window (and every value of `PI`); and
    `dft_normalize_pix` keeps a buffer of non-negative values non-negative
    whenever its maximum is strictly positive. -/
theorem spectrum_nonneg :
    (∀ (PI : ℝ) (dft_abs x : List ℝ), dft_abs.length = 256 → ∀ k, k < 256 →
      0 ≤ (dft_calc_radix4 Real.cos Real.sin Real.sqrt PI dft_abs x).getD k 0) ∧
    (∀ (d : List ℝ) (M : ℝ), d.length = 256 → (∀ k, k < 256 → 0 ≤ d.getD k 0) →
      IsBufMax d M → 0 < M →
      ∃ d', dft_normalize_pix d = Except.ok d' ∧ ∀ k, k < 256 → 0 ≤ d'.getD k 0) := by
  constructor
  · intro PI out x hout k hk
    obtain ⟨y, hy⟩ := dft_calc_radix4_getD_sqrtf Real.cos Real.sin Real.sqrt PI out x hout k hk
    rw [hy]
    exact Real.sqrt_nonneg y
  · intro d M hlen hnn hmax hpos
    obtain ⟨d', hd', _, hval, _, _⟩ := dft_normalize_pix_of_max d M hlen hmax hpos
    refine ⟨d', hd', fun k hk => ?_⟩
    rw [hval k hk]
    exact div_nonneg (mul_nonneg (hnn k hk) (by norm_num)) (le_of_lt hpos)

/-- C14, the claim as stated fails on the code: in the first cycle the check
    observes mode 1 and `show_mode` announces 9000 Hz (group size 3); one
    notification during the pause of `show_mode` makes `show_dft` render with
    the group size 6 of mode 2. -/
theorem main_tail_rereads_mode :
    (main_init mode_init).mode = 1 ∧
    samples_per_lcd_char (main_init mode_init).mode = 3 ∧
    (main_tail 0 1 (main_init mode_init)).announced = some 9000 ∧
    (main_tail 0 1 (main_init mode_init)).samp_char = 6 ∧
    (main_tail 0 1 (main_init mode_init)).samp_char
      ≠ samples_per_lcd_char (main_init mode_init).mode := by
  have h1 : (main_init mode_init).mode = 1 := rfl
  have h2 : samples_per_lcd_char (main_init mode_init).mode = 3 := by
    rw [h1, samples_per_lcd_char_cases]; decide
  have h4 : (main_tail 0 1 (main_init mode_init)).samp_char = 6 := by
    rw [(main_tail_samp_char_eq 0 1 _).1, samples_per_lcd_char_cases]; decide
  refine ⟨h1, h2, ?_, h4, ?_⟩
  · have : (main_tail 0 1 (main_init mode_init)).announced = some (show_mode_arg 1) := rfl
    rw [this, show_mode_arg_cases]
    decide
  · rw [h4, h2]; decide

/-- C14 as amended: with `n1` notifications between the check and the call
    of `samples_per_lcd_char` in line 283 and `n2` between that call and the
    call in line 226, `show_dft` renders with the group size of the mode
    current at line 226 (after `n1 + n2` notifications), a reporting check
    makes `show_mode` announce the frequency of the mode current at line 283
    (after `n1` notifications), and a check that does not report announces
    nothing.  For a mode in `0..3` at the check: the rendered group size is
    that of the mode observed at the check exactly when `n1 + n2` is a
    multiple of 4; the announced frequency is that of the mode observed at the
    check exactly when `n1` is a multiple of 4; the announced frequency is that
    of the mode used for rendering exactly when `n2` is a multiple of 4; and
    announcement and rendering are both those of the mode observed at the
    check exactly when `n1` and `n2` are both multiples of 4, in particular
    when no notification fires. -/
theorem main_tail_samp_char (s : MainState) (h0 : 0 ≤ s.mode) (h3 : s.mode ≤ 3)
    (n1 n2 : Nat) :
    (main_tail n1 n2 s).samp_char = samples_per_lcd_char (main_tail n1 n2 s).state.mode ∧
    ((main_tail n1 n2 s).samp_char = samples_per_lcd_char s.mode ↔ (n1 + n2) % 4 = 0) ∧
    (main_tail 0 0 s).samp_char = samples_per_lcd_char s.mode ∧
    (s.now_mode ≠ s.mode → (main_tail 0 0 s).announced = some (show_mode_arg s.mode)) ∧
    (main_tail n1 n2 s).state.mode = pb_ISR_iter (n1 + n2) s.mode ∧
    (s.now_mode = s.mode → (main_tail n1 n2 s).announced = none) ∧
    (s.now_mode ≠ s.mode →
      (main_tail n1 n2 s).announced = some (show_mode_arg (pb_ISR_iter n1 s.mode)) ∧
      ((main_tail n1 n2 s).announced = some (show_mode_arg s.mode) ↔ n1 % 4 = 0) ∧
      ((main_tail n1 n2 s).announced
          = some (show_mode_arg (main_tail n1 n2 s).state.mode) ↔ n2 % 4 = 0) ∧
      ((main_tail n1 n2 s).announced = some (show_mode_arg s.mode) ∧
        (main_tail n1 n2 s).samp_char = samples_per_lcd_char s.mode
          ↔ n1 % 4 = 0 ∧ n2 % 4 = 0)) := by
  obtain ⟨hs, hm⟩ := main_tail_samp_char_eq n1 n2 s
  have hsamp : (main_tail n1 n2 s).samp_char = samples_per_lcd_char s.mode
      ↔ (n1 + n2) % 4 = 0 := by
    rw [hs, pb_ISR_iter_eq _ _ h0 h3,
      samples_per_lcd_char_inj _ _ (by omega) (by omega) h0 h3]
    omega
  refine ⟨by rw [hs, hm], hsamp, ?_, ?_, hm, (main_tail_announced n1 n2 s).2, ?_⟩
  · rw [(main_tail_samp_char_eq 0 0 s).1]
    rfl
  · intro h
    exact (main_tail_announced 0 0 s).1 h
  · intro h
    have ha := (main_tail_announced n1 n2 s).1 h
    have h1 : (main_tail n1 n2 s).announced = some (show_mode_arg s.mode) ↔ n1 % 4 = 0 := by
      rw [ha, Option.some_inj, pb_ISR_iter_eq _ _ h0 h3,
        show_mode_arg_inj _ _ (by omega) (by omega) h0 h3]
      omega
    refine ⟨ha, h1, ?_, ?_⟩
    · rw [ha, hm, Option.some_inj, pb_ISR_iter_eq _ _ h0 h3, pb_ISR_iter_eq _ _ h0 h3,
        show_mode_arg_inj _ _ (by omega) (by omega) (by omega) (by omega)]
      push_cast
      omega
    · rw [h1, hsamp]
      omega

theorem main_tail_samp_char_witness :
    (0 : Int) ≤ (main_init mode_init).mode ∧ (main_init mode_init).mode ≤ 3 ∧
    ((main_tail 2 2 (main_init mode_init)).samp_char
        = samples_per_lcd_char (main_init mode_init).mode ↔ (2 + 2) % 4 = 0) ∧
    ((main_init mode_init).now_mode ≠ (main_init mode_init).mode →
      (main_tail 2 2 (main_init mode_init)).announced
        = some (show_mode_arg (pb_ISR_iter 2 (main_init mode_init).mode)) ∧
      ((main_tail 2 2 (main_init mode_init)).announced
        = some (show_mode_arg (main_init mode_init).mode) ↔ 2 % 4 = 0) ∧
      ((main_tail 2 2 (main_init mode_init)).announced
        = some (show_mode_arg (main_tail 2 2 (main_init mode_init)).state.mode)
          ↔ 2 % 4 = 0) ∧
      ((main_tail 2 2 (main_init mode_init)).announced
          = some (show_mode_arg (main_init mode_init).mode) ∧
        (main_tail 2 2 (main_init mode_init)).samp_char
          = samples_per_lcd_char (main_init mode_init).mode
          ↔ 2 % 4 = 0 ∧ 2 % 4 = 0)) :=
  ⟨by decide, by decide,
    (main_tail_samp_char (main_init mode_init) (by decide) (by decide) 2 2).2.1,
    (main_tail_samp_char (main_init mode_init) (by decide) (by decide) 2 2).2.2.2.2.2.2⟩

/-- C15: for each of the four modes the argument of `show_mode` is computed
    without 32-bit overflow, is at least the nominal band maximum (4000, 8000,
    16000, 24000 Hz) and at most the Nyquist frequency `F_SAMP/2 = 24000`
    Hz, with equality for the widest mode. -/
theorem show_mode_arg_bounds (mode : Int) (h0 : 0 ≤ mode) (h3 : mode ≤ 3) :
    int32 (samples_per_lcd_char mode * (NUM_COLS_LCD : Int))
      = samples_per_lcd_char mode * (NUM_COLS_LCD : Int) ∧
    int32 (samples_per_lcd_char mode * (NUM_COLS_LCD : Int) * (F_SAMP : Int))
      = samples_per_lcd_char mode * (NUM_COLS_LCD : Int) * (F_SAMP : Int) ∧
    show_mode_arg mode
      = samples_per_lcd_char mode * (NUM_COLS_LCD : Int) * (F_SAMP : Int) / (DFT_SIZE : Int) ∧
    (if mode = 0 then 4000 else if mode = 1 then 8000 else if mode = 2 then 16000 else 24000)
      ≤ show_mode_arg mode ∧
    show_mode_arg mode ≤ ((F_SAMP / 2 : Nat) : Int) ∧ ((F_SAMP / 2 : Nat) : Int) = 24000 ∧
    (mode = 3 → show_mode_arg mode = 24000) := by
  have hm : mode = 0 ∨ mode = 1 ∨ mode = 2 ∨ mode = 3 := by omega
  rw [show_mode_arg_cases, samples_per_lcd_char_cases]
  rcases hm with h | h | h | h <;> subst h <;> decide

theorem show_mode_arg_bounds_witness :
    (0 : Int) ≤ 1 ∧ (1 : Int) ≤ 3 ∧ (8000 : Int) ≤ show_mode_arg 1 ∧
    show_mode_arg 1 ≤ ((F_SAMP / 2 : Nat) : Int) :=
  ⟨by decide, by decide,
    (show_mode_arg_bounds 1 (by decide) (by decide)).2.2.2.1,
    (show_mode_arg_bounds 1 (by decide) (by decide)).2.2.2.2.1⟩

/-- C16: for every real window of 256 samples, `signal_DC_removal` followed
    by `dft_calc_radix4` (over `ℝ`, `PI` read as `π`) gives `dft_abs[0] = 0`,
    and the maximum loop of `dft_normalize_pix` on that spectrum gives the
    same result as the loop over the bins `1..255` alone. -/
theorem dc_removed_bin0_zero (dft_abs x : List ℝ) (hout : dft_abs.length = 256)
    (hx : x.length = 256) :
    (dft_calc_radix4 Real.cos Real.sin Real.sqrt Real.pi dft_abs
      (signal_DC_removal x)).getD 0 0 = 0 ∧
    dft_max (dft_calc_radix4 Real.cos Real.sin Real.sqrt Real.pi dft_abs (signal_DC_removal x))
      = ((List.range 255).map Nat.succ).foldl
          (fun mx k =>
            if (dft_calc_radix4 Real.cos Real.sin Real.sqrt Real.pi dft_abs
                (signal_DC_removal x)).getD k 0 > mx
            then (dft_calc_radix4 Real.cos Real.sin Real.sqrt Real.pi dft_abs
                (signal_DC_removal x)).getD k 0
            else mx) 0 :=
  ⟨dft_dc_removed_bin0 dft_abs x hout hx,
    dft_max_skip_zero_bin _ (dft_dc_removed_bin0 dft_abs x hout hx)⟩

theorem dc_removed_bin0_zero_witness :
    (List.replicate 256 (0 : ℝ)).length = 256 ∧ (List.replicate 256 (7 : ℝ)).length = 256 ∧
    (dft_calc_radix4 Real.cos Real.sin Real.sqrt Real.pi (List.replicate 256 (0 : ℝ))
      (signal_DC_removal (List.replicate 256 (7 : ℝ)))).getD 0 0 = 0 :=
  ⟨List.length_replicate 256 0, List.length_replicate 256 7,
    (dc_removed_bin0_zero (List.replicate 256 (0 : ℝ)) (List.replicate 256 (7 : ℝ))
      (List.length_replicate 256 0) (List.length_replicate 256 7)).1⟩

/-- C17: for every real window and every `k` with `1 ≤ k ≤ 255` the output
    of `dft_calc_radix4` (over `ℝ`, `PI` read as `π`) is mirror-symmetric:
    `dft_abs[256 - k] = dft_abs[k]`. -/
theorem dft_calc_radix4_mirror (dft_abs x : List ℝ) (hout : dft_abs.length = 256)
    (_hx : x.length = 256) (k : Nat) (hk1 : 1 ≤ k) (hk : k ≤ 255) :
    (dft_calc_radix4 Real.cos Real.sin Real.sqrt Real.pi dft_abs x).getD (256 - k) 0
      = (dft_calc_radix4 Real.cos Real.sin Real.sqrt Real.pi dft_abs x).getD k 0 :=
  dft_mirror_getD dft_abs x hout k hk1 hk

theorem dft_calc_radix4_mirror_witness :
    (List.replicate 256 (0 : ℝ)).length = 256 ∧ (List.replicate 256 (1 : ℝ)).length = 256 ∧
    1 ≤ 3 ∧ 3 ≤ 255 ∧
    (dft_calc_radix4 Real.cos Real.sin Real.sqrt Real.pi (List.replicate 256 (0 : ℝ))
        (List.replicate 256 (1 : ℝ))).getD (256 - 3) 0
      = (dft_calc_radix4 Real.cos Real.sin Real.sqrt Real.pi (List.replicate 256 (0 : ℝ))
        (List.replicate 256 (1 : ℝ))).getD 3 0 :=
  ⟨List.length_replicate 256 0, List.length_replicate 256 1, by decide, by decide,
    dft_calc_radix4_mirror (List.replicate 256 (0 : ℝ)) (List.replicate 256 (1 : ℝ))
      (List.length_replicate 256 0) (List.length_replicate 256 1) 3 (by decide) (by decide)⟩

/-- C18: DC removal changes only bin 0 of the spectrum: for every real window
    `x` of 256 samples and every bin `k` with `1 ≤ k ≤ 255`,
    `dft_calc_radix4` applied to `signal_DC_removal x` gives the same
    `dft_abs[k]` as `dft_calc_radix4` applied to `x` (over `ℝ`, `PI` read as
    `π`). -/
theorem dc_removal_keeps_bins (dft_abs x : List ℝ) (hout : dft_abs.length = 256)
    (hx : x.length = 256) (k : Nat) (hk1 : 1 ≤ k) (hk : k ≤ 255) :
    (dft_calc_radix4 Real.cos Real.sin Real.sqrt Real.pi dft_abs (signal_DC_removal x)).getD k 0
      = (dft_calc_radix4 Real.cos Real.sin Real.sqrt Real.pi dft_abs x).getD k 0 :=
  dft_dc_removed_getD dft_abs dft_abs x hout hout hx k hk1 (by omega)

theorem dc_removal_keeps_bins_witness :
    (List.replicate 256 (0 : ℝ)).length = 256 ∧ (List.replicate 256 (1 : ℝ)).length = 256 ∧
    1 ≤ 5 ∧ 5 ≤ 255 ∧
    (dft_calc_radix4 Real.cos Real.sin Real.sqrt Real.pi (List.replicate 256 (0 : ℝ))
        (signal_DC_removal (List.replicate 256 (1 : ℝ)))).getD 5 0
      = (dft_calc_radix4 Real.cos Real.sin Real.sqrt Real.pi (List.replicate 256 (0 : ℝ))
        (List.replicate 256 (1 : ℝ))).getD 5 0 :=
  ⟨List.length_replicate 256 0, List.length_replicate 256 1, by decide, by decide,
    dc_removal_keeps_bins (List.replicate 256 (0 : ℝ)) (List.replicate 256 (1 : ℝ))
      (List.length_replicate 256 0) (List.length_replicate 256 1) 5 (by decide) (by decide)⟩

/-- C19: the display is amplitude-independent: for every mode, every real
    window `x` of 256 samples whose DC-removed spectrum has a strictly
    positive bin, and every real `c > 0`, the cycle
    `signal_DC_removal`, `dft_calc_radix4`, `show_dft` succeeds on `x` and on
    `c·x` and passes the same 16 heights to `print_bar` (over `ℝ`, `PI` read
    as `π`). -/
theorem main_cycle_scale_invariant (mode : Int) (dft_abs x : List ℝ) (c : ℝ)
    (hout : dft_abs.length = 256) (hx : x.length = 256) (hc : 0 < c)
    (hpos : ∃ k, k < 256 ∧ 0 < (dft_calc_radix4 Real.cos Real.sin Real.sqrt Real.pi dft_abs
      (signal_DC_removal x)).getD k 0) :
    ∃ hts, hts.length = 16 ∧
      main_cycle Real.cos Real.sin Real.sqrt Real.pi mode dft_abs x = Except.ok hts ∧
      main_cycle Real.cos Real.sin Real.sqrt Real.pi mode dft_abs (x.map (fun v => c * v))
        = Except.ok hts := by
  obtain ⟨hts, h1, h2⟩ := show_dft_scale mode c hc
    (dft_calc_radix4 Real.cos Real.sin Real.sqrt Real.pi dft_abs (signal_DC_removal x))
    (dft_calc_radix4 Real.cos Real.sin Real.sqrt Real.pi dft_abs
      (signal_DC_removal (x.map (fun v => c * v))))
    (dft_calc_radix4_length _ _ _ _ dft_abs _ hout)
    (dft_calc_radix4_length _ _ _ _ dft_abs _ hout)
    (fun j hj => dft_scale_getD c hc dft_abs dft_abs x hout hout hx j hj) hpos
  refine ⟨hts, ?_, h1, h2⟩
  have hM := dft_max_pos_of_exists _ hpos
  obtain ⟨d', hd', hlen', _⟩ := dft_normalize_pix_spec
    (dft_calc_radix4 Real.cos Real.sin Real.sqrt Real.pi dft_abs (signal_DC_removal x))
    (dft_calc_radix4_length _ _ _ _ dft_abs _ hout) (ne_of_gt hM)
  have h3 := show_dft_of_normalized mode _ d' hd' hlen'
  rw [h1] at h3
  have h4 := congrArg (fun r => match r with
    | Except.ok l => l.length
    | Except.error _ => 0) h3
  simpa [NUM_COLS_LCD] using h4

theorem main_cycle_scale_invariant_witness :
    ∃ hts, hts.length = 16 ∧
      main_cycle Real.cos Real.sin Real.sqrt Real.pi 1 (List.replicate 256 (0 : ℝ))
        ((List.range 256).map (fun n : ℕ => Real.sin (2 * Real.pi * 8 * (n : ℝ) / 256)))
        = Except.ok hts ∧
      main_cycle Real.cos Real.sin Real.sqrt Real.pi 1 (List.replicate 256 (0 : ℝ))
        (((List.range 256).map (fun n : ℕ => Real.sin (2 * Real.pi * 8 * (n : ℝ) / 256))).map
          (fun v => 3 * v))
        = Except.ok hts :=
  main_cycle_scale_invariant 1 (List.replicate 256 (0 : ℝ))
    ((List.range 256).map (fun n : ℕ => Real.sin (2 * Real.pi * 8 * (n : ℝ) / 256))) 3
    (List.length_replicate 256 0) sine_length (by norm_num)
    ⟨8, by norm_num, by
      rw [dft_dc_removed_getD _ (List.replicate 256 (0 : ℝ)) _ (List.length_replicate 256 0)
        (List.length_replicate 256 0) sine_length 8 (by norm_num) (by norm_num),
        sine_spectrum _ (List.length_replicate 256 0) 8 (by norm_num), if_pos (Or.inl rfl)]
      norm_num⟩

/-- C20: for every height `v` in `[1, 16]`, `print_bar` writes only glyph
    codes in `[0, 7]`, in the given column, and the glyphs it writes light
    exactly `v` pixel rows in total: for `v ≤ 8` the bottom cell gets glyph
    `v - 1`; for `v > 8` the top cell gets glyph `v - 9` and the bottom cell
    the full glyph 7; glyph `g` of `udc_bar` has `g + 1` lit rows. -/
theorem print_bar_lit_rows (value col : Int) (h1 : 1 ≤ value) (h16 : value ≤ 16) :
    (∀ w, w ∈ print_bar value col → 0 ≤ w.c ∧ w.c ≤ 7 ∧ w.col = col) ∧
    (litRowsTotal (print_bar value col) : Int) = value ∧
    (value ≤ 8 → print_bar value col = [{ col := col, row := 1, c := value - 1 }]) ∧
    (8 < value → print_bar value col
      = [{ col := col, row := 0, c := value - 9 }, { col := col, row := 1, c := 7 }]) ∧
    (∀ g : Nat, g < 8 → litRows (g : Int) = g + 1) := by
  have hl := litRows_table
  have hv : value = 1 ∨ value = 2 ∨ value = 3 ∨ value = 4 ∨ value = 5 ∨ value = 6 ∨ value = 7
      ∨ value = 8 ∨ value = 9 ∨ value = 10 ∨ value = 11 ∨ value = 12 ∨ value = 13
      ∨ value = 14 ∨ value = 15 ∨ value = 16 := by omega
  refine ⟨?_, ?_, ?_, ?_, ?_⟩
  · rcases hv with h | h | h | h | h | h | h | h | h | h | h | h | h | h | h | h <;> subst h <;>
      simp [print_bar, NUM_PIX_VERT, NUM_UDCS]
  · rcases hv with h | h | h | h | h | h | h | h | h | h | h | h | h | h | h | h <;> subst h <;>
      simp [print_bar, NUM_PIX_VERT, NUM_UDCS, litRowsTotal, hl]
  · intro h
    have : value ≤ ((NUM_PIX_VERT / 2 : Nat) : Int) := h
    unfold print_bar
    rw [if_pos this, if_pos (by omega)]
  · intro h
    have : ¬ value ≤ ((NUM_PIX_VERT / 2 : Nat) : Int) := not_le.mpr h
    unfold print_bar
    rw [if_neg this]
    have e : value - (NUM_UDCS : Int) - 1 = value - 9 := by
      simp only [NUM_UDCS]; omega
    rw [e]
  · intro g hg
    interval_cases g <;> simp [hl]

theorem print_bar_lit_rows_witness :
    (1 : Int) ≤ 11 ∧ (11 : Int) ≤ 16 ∧ (litRowsTotal (print_bar 11 4) : Int) = 11 :=
  ⟨by decide, by decide, (print_bar_lit_rows 11 4 (by decide) (by decide)).2.1⟩

end STM32DFT
